import Mathlib

/-!
# calc: tokenizer, parser and evaluator

A shallow embedding of `tokenizer/tokenizer.go`, `parser/parser.go` and
`eval/eval.go`, followed by theorems about them.

Conventions of the embedding.

* A Go `string` is a Lean `String`; the byte at index `i` is the `i`-th
  element of `s.data` (the inputs considered are ASCII, where bytes and
  characters coincide; a character outside ASCII is, like a byte `>= 0x80`,
  in none of the classes the tokenizer recognises).
* A Go call either returns or panics.  `Outcome.ret` carries the returned
  value, `Outcome.panic` the run-time panic.  Loops whose termination is not
  structural carry a step budget; `Outcome.fuel` says the budget ran out and
  is not a behaviour of the Go code.
* A Go result pair `(T, error)` is a Lean pair `T × Option String`, the error
  being its message (`none` is `nil`).
* `float64`, `math` and `strconv.ParseFloat` are not part of the repository:
  the evaluator is parametrised by a `Float64` structure that supplies them.
-/

namespace Calc

/-! ## tokenizer/tokenizer.go -/

/-- The `TokenType` enumeration (`iota` order). -/
inductive TokenType where
  | NumberToken
  | PlusToken
  | MinusToken
  | MultiplyToken
  | DivideToken
  | PowerToken
  | EqualToken
  | LeftParenthesisToken
  | RightParenthesisToken
  | Identifier
  | Comma
  | EOF
  deriving DecidableEq, Repr

/-- The Go struct `Token`; the field `Type` is spelled `Typ` (reserved word). -/
structure Token where
  Typ : TokenType
  Value : String
  deriving DecidableEq, Repr

/-- The method `TokenType.String`. -/
def TokenType.String : TokenType → String
  | .NumberToken => "Number"
  | .PlusToken => "Plus"
  | .MinusToken => "Minus"
  | .MultiplyToken => "Multiply"
  | .DivideToken => "Divide"
  | .LeftParenthesisToken => "LeftParenthesis"
  | .EqualToken => "EqualToken"
  | .PowerToken => "PowerToken"
  | .RightParenthesisToken => "RightParenthesis"
  | .Identifier => "Identifier"
  | .Comma => "Comma"
  | .EOF => "EOF"

/-- Result of running a Go call: it returned, it panicked, or the step budget
of the model ran out. -/
inductive Outcome (α : Type) where
  | ret (a : α)
  | panic (msg : String)
  | fuel
  deriving DecidableEq, Repr

/-- The test `input[i] >= '0' && input[i] <= '9'`. -/
def isDigit (c : Char) : Bool := decide ('0' ≤ c) && decide (c ≤ '9')

/-- The loop condition of the number branch:
`input[i] >= '0' && input[i] <= '9' || input[i] == '.'`. -/
def isNumberChar (c : Char) : Bool := isDigit c || c == '.'

/-- The test `(input[i] >= 'a' && input[i] <= 'z') || (input[i] >= 'A' && input[i] <= 'Z')`. -/
def isLetter (c : Char) : Bool :=
  (decide ('a' ≤ c) && decide (c ≤ 'z')) || (decide ('A' ≤ c) && decide (c ≤ 'Z'))

/-- The `for` loop of `Tokenize`.  The second argument is `input[i:]`, the
bytes from the cursor on; the third is the slice `tokens` built so far.  One
unit of budget is spent per iteration. -/
def tokenizeLoop : Nat → List Char → List Token → Outcome (List Token)
  | _, [], tokens => .ret tokens
  | 0, _ :: _, _ => .fuel
  | fuel + 1, c :: rest, tokens =>
    if c = ' ' then tokenizeLoop fuel rest tokens
    else if c = ',' then tokenizeLoop fuel rest (tokens ++ [⟨.Comma, ","⟩])
    else if c = '+' then tokenizeLoop fuel rest (tokens ++ [⟨.PlusToken, "+"⟩])
    else if c = '-' then tokenizeLoop fuel rest (tokens ++ [⟨.MinusToken, "-"⟩])
    else if c = '*' then
      if rest.head? = some '*' then tokenizeLoop fuel rest.tail (tokens ++ [⟨.PowerToken, "**"⟩])
      else tokenizeLoop fuel rest (tokens ++ [⟨.MultiplyToken, "*"⟩])
    else if c = '/' then tokenizeLoop fuel rest (tokens ++ [⟨.DivideToken, "/"⟩])
    else if c = '(' then tokenizeLoop fuel rest (tokens ++ [⟨.LeftParenthesisToken, "("⟩])
    else if c = ')' then tokenizeLoop fuel rest (tokens ++ [⟨.RightParenthesisToken, ")"⟩])
    else if c = '\n' then tokenizeLoop fuel rest tokens
    else if isDigit c then
      tokenizeLoop fuel ((c :: rest).dropWhile isNumberChar)
        (tokens ++ [⟨.NumberToken, String.mk ((c :: rest).takeWhile isNumberChar)⟩])
    else if isLetter c then
      tokenizeLoop fuel ((c :: rest).dropWhile isLetter)
        (tokens ++ [⟨.Identifier, String.mk ((c :: rest).takeWhile isLetter)⟩])
    else .panic ("unexpected character: " ++ String.singleton c)

/-- The function `Tokenize`.  Every iteration advances the cursor, so
`len(input)` iterations are enough. -/
def Tokenize (input : String) : Outcome (List Token) :=
  tokenizeLoop input.data.length input.data []

/-! ## parser/parser.go -/

/-- The node types of the syntax tree.  `Statement` and `Expression` are both
`interface{}` in Go; the constructors are the struct types that are stored in
them.  `Program` is the boxed `Program` struct, which `evalExpression`
also accepts. -/
inductive Expression where
  | BinaryExpression (Left Right : Expression) (Op : Token) (Kind : String)
  | UnaryExpression (Right : Expression) (Op : Token) (Kind : String)
  | NumberExpression (Value : Token) (Kind : String)
  | IdentifierExpression (Value : Token) (Kind : String)
  | FuncExpression (Name : String) (Args : List Expression) (Kind : String)
  | Program (Statements : List Expression) (Kind : String)
  deriving Repr

/-- The Go struct `Program`. -/
structure Program where
  Statements : List Expression
  Kind : String
  deriving Repr

/-- The Go struct `Parser`: the token slice and the cursor `current`. -/
structure Parser where
  tokens : List Token
  current : Nat
  deriving DecidableEq, Repr

/-- The constructor `NewParser`. -/
def NewParser (tokens : List Token) : Parser := ⟨tokens, 0⟩

/-- The method `Get(pos ...int)`: the token at `pos[0]`, or at `current` when
no position is passed; `none` is the `nil` pointer. -/
def Parser.Get (p : Parser) (pos : List Nat) : Option Token :=
  let position := match pos with
    | [] => p.current
    | x :: _ => x
  if position ≥ p.tokens.length then none else p.tokens[position]?

/-- The statement `p.current++`. -/
def Parser.advance (p : Parser) : Parser := { p with current := p.current + 1 }

/-- Result of a parse method: `ok` is a returned expression with `nil` error
(and the parser state after the call), `error` a returned non-nil error. -/
inductive Parsed where
  | ok (e : Expression) (p : Parser)
  | error (msg : String)
  | panic (msg : String)
  | fuel
  deriving Repr

/-- The panic raised by reading a field through a `nil` pointer. -/
def nilDereference : String :=
  "runtime error: invalid memory address or nil pointer dereference"

/-- The method `parseNumber`. -/
def parseNumber (p : Parser) : Parsed :=
  match p.Get [] with
  | none => .panic nilDereference
  | some tok => .ok (.NumberExpression tok "NumberExpression") p.advance

/-- The method `parseIdentifier`. -/
def parseIdentifier (p : Parser) : Parsed :=
  match p.Get [] with
  | none => .panic nilDereference
  | some tok => .ok (.IdentifierExpression tok "IdentifierExpression") p.advance

/-- The statements of `parseFunction` after its argument loop. -/
def parseFunctionClose (name : String) (args : List Expression) (p : Parser) : Parsed :=
  match p.Get [] with
  | none => .panic nilDereference
  | some token =>
    if token.Typ ≠ .RightParenthesisToken then
      .error ("expected RightParenthesis but got " ++ token.Typ.String)
    else .ok (.FuncExpression name args "FuncExpression") p.advance

mutual

/-- The method `parseExpression`. -/
def parseExpression : Nat → Parser → Parsed
  | 0, _ => .fuel
  | fuel + 1, p => parseAddition fuel p

/-- The method `parseAddition`, up to its `for` loop. -/
def parseAddition : Nat → Parser → Parsed
  | 0, _ => .fuel
  | fuel + 1, p =>
    match parseMultiplication fuel p with
    | .ok left p => parseAdditionLoop fuel left p
    | r => r

/-- The `for` loop of `parseAddition`. -/
def parseAdditionLoop : Nat → Expression → Parser → Parsed
  | 0, _, _ => .fuel
  | fuel + 1, left, p =>
    match p.Get [] with
    | none => .ok left p
    | some token =>
      if token.Typ ≠ .PlusToken ∧ token.Typ ≠ .MinusToken then .ok left p
      else
        match parseMultiplication fuel p.advance with
        | .ok right p =>
          parseAdditionLoop fuel (.BinaryExpression left right token "BinaryExpression") p
        | r => r

/-- The method `parseMultiplication`, up to its `for` loop. -/
def parseMultiplication : Nat → Parser → Parsed
  | 0, _ => .fuel
  | fuel + 1, p =>
    match parsePower fuel p with
    | .ok left p => parseMultiplicationLoop fuel left p
    | r => r

/-- The `for` loop of `parseMultiplication`. -/
def parseMultiplicationLoop : Nat → Expression → Parser → Parsed
  | 0, _, _ => .fuel
  | fuel + 1, left, p =>
    match p.Get [] with
    | none => .ok left p
    | some token =>
      if token.Typ ≠ .MultiplyToken ∧ token.Typ ≠ .DivideToken then .ok left p
      else
        match parsePower fuel p.advance with
        | .ok right p =>
          parseMultiplicationLoop fuel (.BinaryExpression left right token "BinaryExpression") p
        | r => r

/-- The method `parsePower`, up to its `for` loop. -/
def parsePower : Nat → Parser → Parsed
  | 0, _ => .fuel
  | fuel + 1, p =>
    match parsePrimary fuel p with
    | .ok left p => parsePowerLoop fuel left p
    | r => r

/-- The `for` loop of `parsePower`. -/
def parsePowerLoop : Nat → Expression → Parser → Parsed
  | 0, _, _ => .fuel
  | fuel + 1, left, p =>
    match p.Get [] with
    | none => .ok left p
    | some token =>
      if token.Typ ≠ .PowerToken ∧ token.Typ ≠ .DivideToken then .ok left p
      else
        match parsePrimary fuel p.advance with
        | .ok right p =>
          parsePowerLoop fuel (.BinaryExpression left right token "BinaryExpression") p
        | r => r

/-- The method `parsePrimary`. -/
def parsePrimary : Nat → Parser → Parsed
  | 0, _ => .fuel
  | fuel + 1, p =>
    match p.Get [] with
    | none => .error "unexpected end of input"
    | some token =>
      match token.Typ with
      | .NumberToken => parseNumber p
      | .Identifier =>
        if (p.Get [p.current + 1]).isNone ||
            (p.Get [p.current + 1]).any (fun t => t.Typ != .LeftParenthesisToken) then
          parseIdentifier p
        else if (p.Get [p.current + 1]).any (fun t => t.Typ == .LeftParenthesisToken) then
          parseFunction fuel p
        else .error ("unexpected token: " ++ token.Typ.String)
      | .LeftParenthesisToken => parseGroup fuel p
      | _ => .error ("unexpected token: " ++ token.Typ.String)

/-- The method `parseGroup`. -/
def parseGroup : Nat → Parser → Parsed
  | 0, _ => .fuel
  | fuel + 1, p =>
    match parseExpression fuel p.advance with
    | .ok expr p =>
      match p.Get [] with
      | none => .panic nilDereference
      | some token =>
        if token.Typ ≠ .RightParenthesisToken then
          .error ("expected RightParenthesis but got " ++ token.Typ.String)
        else .ok expr p.advance
    | r => r

/-- The method `parseFunction`, up to its argument loop. -/
def parseFunction : Nat → Parser → Parsed
  | 0, _ => .fuel
  | fuel + 1, p =>
    match p.Get [] with
    | none => .panic nilDereference
    | some nameToken =>
      let name := nameToken.Value
      let p := p.advance
      match p.Get [] with
      | none => .panic nilDereference
      | some token =>
        if token.Typ ≠ .LeftParenthesisToken then
          .error ("expected LeftParenthesis but got " ++ token.Typ.String)
        else
          let p := p.advance
          match p.Get [] with
          | none => .panic nilDereference
          | some token =>
            if token.Typ = .RightParenthesisToken then
              .ok (.FuncExpression name [] "FuncExpression") p.advance
            else parseFunctionLoop fuel name [] p

/-- The argument loop of `parseFunction`, followed by the rest of the method. -/
def parseFunctionLoop : Nat → String → List Expression → Parser → Parsed
  | 0, _, _, _ => .fuel
  | fuel + 1, name, args, p =>
    match p.Get [] with
    | none => parseFunctionClose name args p
    | some token =>
      if token.Typ = .RightParenthesisToken then parseFunctionClose name args p
      else
        match parseExpression fuel p with
        | .ok arg p =>
          let args := args ++ [arg]
          if (p.Get []).any (fun t => t.Typ == .Comma) then
            parseFunctionLoop fuel name args p.advance
          else parseFunctionLoop fuel name args p
        | r => r

end

/-- The method `parseStatement`. -/
def parseStatement (fuel : Nat) (p : Parser) : Parsed := parseExpression fuel p

/-- The `for` loop of `Parse` and its `return`. -/
def parseLoop : Nat → Parser → List Expression → Outcome (Program × Option String)
  | 0, _, _ => .fuel
  | fuel + 1, p, statements =>
    if p.current < p.tokens.length then
      match parseStatement fuel p with
      | .ok stmt p => parseLoop fuel p (statements ++ [stmt])
      | .error msg => .ret (⟨[], ""⟩, some msg)
      | .panic msg => .panic msg
      | .fuel => .fuel
    else .ret (⟨statements, "Program"⟩, none)

/-- The step budget given to `Parse`: six steps for every token and seven more
(a nested call costs at most six steps for each token it consumes). -/
def parseFuel (tokens : List Token) : Nat := 6 * tokens.length + 7

/-- The method `Parse`, called on `NewParser(tokens)`. -/
def Parse (tokens : List Token) : Outcome (Program × Option String) :=
  parseLoop (parseFuel tokens) (NewParser tokens) []

/-! ## eval/eval.go -/

/-- The parts of the Go runtime and standard library the evaluator uses:
the type `float64` with the constants `0` and `1`, the operators `+ - * /`,
the functions and constants of package `math` and `strconv.ParseFloat(s, 64)`
(`Except.error` carries the message of the returned error). -/
structure Float64 where
  F : Type
  zero : F
  one : F
  add : F → F → F
  sub : F → F → F
  mul : F → F → F
  div : F → F → F
  Pow : F → F → F
  Pi : F
  E : F
  Sin : F → F
  Cos : F → F
  Tan : F → F
  Asin : F → F
  Acos : F → F
  Atan : F → F
  Sqrt : F → F
  Log : F → F
  Exp : F → F
  Abs : F → F
  Ceil : F → F
  Floor : F → F
  Round : F → F
  Trunc : F → F
  ParseFloat : String → Except String F

/-- The map `mathFuncs`, as its list of entries. -/
def mathFuncs (M : Float64) : List (String × (M.F → M.F)) :=
  [("sin", M.Sin), ("cos", M.Cos), ("tan", M.Tan), ("asin", M.Asin), ("acos", M.Acos),
   ("atan", M.Atan), ("sqrt", M.Sqrt), ("log", M.Log), ("exp", M.Exp), ("abs", M.Abs),
   ("ceil", M.Ceil), ("floor", M.Floor), ("round", M.Round), ("trunc", M.Trunc)]

/-- The map `MathConstants`, as its list of entries. -/
def MathConstants (M : Float64) : List (String × M.F) :=
  [("pi", M.Pi), ("e", M.E), ("testvar", M.one)]

/-- The panic raised by `args[0]` and `e.Statements[0]` on an empty slice. -/
def indexOutOfRange : String := "runtime error: index out of range [0] with length 0"

/-- The `switch e.Op.Type` of `evalBinaryExpression`. -/
def applyBinaryOperator (M : Float64) (Op : Token) (left right : M.F) : M.F × Option String :=
  match Op.Typ with
  | .PlusToken => (M.add left right, none)
  | .MinusToken => (M.sub left right, none)
  | .MultiplyToken => (M.mul left right, none)
  | .DivideToken => (M.div left right, none)
  | .PowerToken => (M.Pow left right, none)
  | _ => (M.zero, some ("Unknown binary operator: " ++ Op.Typ.String))

/-- The statements of `evalFunctionExpression` after its loop, `args` being the
slice of evaluated arguments. -/
def applyFunction (M : Float64) (Name : String) (args : List M.F) :
    Outcome (M.F × Option String) :=
  match (mathFuncs M).lookup Name with
  | some f =>
    match args with
    | [] => .panic indexOutOfRange
    | a :: _ => .ret (f a, none)
  | none => .ret (M.zero, some ("Unknown function: " ++ Name))

/-- The body of `evalIdentifierExpression`. -/
def evalIdentifierExpression (M : Float64) (Value : Token) : Outcome (M.F × Option String) :=
  match (MathConstants M).lookup Value.Value with
  | some C => .ret (C, none)
  | none => .ret (M.zero, some ("Undefined variable " ++ Value.Value))

mutual

/-- The function `evalExpression`, a type switch on the node.  The cases
`BinaryExpression` and `FuncExpression` contain the bodies of
`evalBinaryExpression` and `evalFunctionExpression`. -/
def evalExpression (M : Float64) : Expression → Outcome (M.F × Option String)
  | .NumberExpression Value _ =>
    match M.ParseFloat Value.Value with
    | .error err => .ret (M.zero, some err)
    | .ok value => .ret (value, none)
  | .FuncExpression Name Args _ =>
    match evalArgs M Args with
    | .ret args => applyFunction M Name args
    | .panic msg => .panic msg
    | .fuel => .fuel
  | .BinaryExpression Left Right Op _ =>
    match evalExpression M Left with
    | .ret (left, err) =>
      match evalExpression M Right with
      | .ret (right, err2) =>
        if err ≠ none then .ret (M.zero, err)
        else if err2 ≠ none then .ret (M.zero, err2)
        else .ret (applyBinaryOperator M Op left right)
      | .panic msg => .panic msg
      | .fuel => .fuel
    | .panic msg => .panic msg
    | .fuel => .fuel
  | .IdentifierExpression Value _ => evalIdentifierExpression M Value
  | .Program Statements _ =>
    match Statements with
    | [] => .panic indexOutOfRange
    | s :: _ => evalExpression M s
  | .UnaryExpression _ _ _ =>
    .ret (M.zero, some "Unknown expression type: calc.UnaryExpression")

/-- The loop `for i, arg := range e.Args { args[i], _ = evalExpression(arg) }`
of `evalFunctionExpression`: every argument is evaluated, its error dropped. -/
def evalArgs (M : Float64) : List Expression → Outcome (List M.F)
  | [] => .ret []
  | arg :: rest =>
    match evalExpression M arg with
    | .ret (value, _) =>
      match evalArgs M rest with
      | .ret values => .ret (value :: values)
      | .panic msg => .panic msg
      | .fuel => .fuel
    | .panic msg => .panic msg
    | .fuel => .fuel

end

/-- The function `Eval`. -/
def Eval (M : Float64) (program : Program) : Outcome (M.F × Option String) :=
  evalExpression M (.Program program.Statements program.Kind)

/-! ### Exact arithmetic -/

/-- Value of a string of decimal digits. -/
def digitsValue (ds : List Char) : Nat :=
  ds.foldl (fun n c => 10 * n + (c.toNat - '0'.toNat)) 0

/-- Decimal literals `digits` and `digits.digits` (one of the two digit strings
may be empty) read as a rational number; other strings are a syntax error. -/
def parseDecimal (s : String) : Except String ℚ :=
  let whole := s.data.takeWhile isDigit
  let rest := s.data.dropWhile isDigit
  let frac := rest.tail
  if (rest = [] ∨ rest.head? = some '.') ∧ frac.all isDigit ∧ (whole ≠ [] ∨ frac ≠ []) then
    .ok ((digitsValue whole : ℚ) + (digitsValue frac : ℚ) / (10 : ℚ) ^ frac.length)
  else .error ("strconv.ParseFloat: parsing \"" ++ s ++ "\": invalid syntax")

/-- Exact rational arithmetic as an interpretation of `Float64`.  It agrees
with `float64` on decimal literals, `+`, `-` and `*` as long as every value
involved is an integer of magnitude below `2^53`, where `float64` is exact.
`Abs`, `Floor`, `Ceil`, `Trunc` and `Round` are the exact functions; the other
functions and the constants of package `math` have no rational counterpart
and are left uninterpreted (the constant `0`). -/
@[reducible] def Exact : Float64 where
  F := ℚ
  zero := 0
  one := 1
  add := fun a b => a + b
  sub := fun a b => a - b
  mul := fun a b => a * b
  div := fun a b => a / b
  Pow := fun a b => if b.den = 1 then a ^ b.num else 0
  Pi := 0
  E := 0
  Sin := fun _ => 0
  Cos := fun _ => 0
  Tan := fun _ => 0
  Asin := fun _ => 0
  Acos := fun _ => 0
  Atan := fun _ => 0
  Sqrt := fun _ => 0
  Log := fun _ => 0
  Exp := fun _ => 0
  Abs := fun a => |a|
  Ceil := fun a => (⌈a⌉ : ℤ)
  Floor := fun a => (⌊a⌋ : ℤ)
  Round := fun a => if 0 ≤ a then (⌊a + 1 / 2⌋ : ℤ) else (⌈a - 1 / 2⌉ : ℤ)
  Trunc := fun a => if 0 ≤ a then (⌊a⌋ : ℤ) else (⌈a⌉ : ℤ)
  ParseFloat := parseDecimal

/-! ## Character classes of the tokenizer -/

/-- The classes the tokenizer has a case for: space, newline, the operator
characters `+ - * / ( )` and `,`, the digits and `.`, and the letters. -/
def recognised (c : Char) : Bool :=
  c == ' ' || c == '\n' || c == '+' || c == '-' || c == '*' || c == '/' || c == '(' ||
    c == ')' || c == ',' || isDigit c || c == '.' || isLetter c

/-- A `.` that does not continue a number: it is the first byte of the input
or follows a byte that is neither a digit nor a `.`. -/
def strayDot (l : List Char) : Prop :=
  ∃ pre post, l = pre ++ '.' :: post ∧ ∀ c, pre.getLast? = some c → isNumberChar c = false

/-- Scan for a byte of no class or a `.` that does not continue a number;
`prev` tells whether the preceding byte is a digit or a `.`. -/
def strayFrom : Bool → List Char → Bool
  | _, [] => false
  | prev, c :: rest => !recognised c || (c == '.' && !prev) || strayFrom (isNumberChar c) rest

/-! ## Trees and token slices used in the statements -/

/-- The node `NumberExpression{Value: tok, Kind: "NumberExpression"}`. -/
def num (tok : Token) : Expression := .NumberExpression tok "NumberExpression"

/-- The node `BinaryExpression{Left, Right, Op, Kind: "BinaryExpression"}`. -/
def binary (left : Expression) (op : Token) (right : Expression) : Expression :=
  .BinaryExpression left right op "BinaryExpression"

/-- The tokens `o1, x1, ..., on, xn` of a list of pairs (operator, operand). -/
def operandTokens : List (Token × Token) → List Token
  | [] => []
  | (o, x) :: rest => o :: x :: operandTokens rest

/-- The left-deep chain that folds the pairs (operator, Number operand) onto
`left` from the left: `((left o1 x1) o2 x2) ... on xn`. -/
def chainFrom (left : Expression) (rest : List (Token × Token)) : Expression :=
  rest.foldl (fun acc ox => binary acc ox.1 (num ox.2)) left

/-- The tokens of `"1+2*3"`. -/
def tokens_1_plus_2_times_3 : List Token :=
  [⟨.NumberToken, "1"⟩, ⟨.PlusToken, "+"⟩, ⟨.NumberToken, "2"⟩, ⟨.MultiplyToken, "*"⟩,
   ⟨.NumberToken, "3"⟩]

/-- The tokens of `"(1+2)*3"`. -/
def tokens_group_1_plus_2_times_3 : List Token :=
  [⟨.LeftParenthesisToken, "("⟩, ⟨.NumberToken, "1"⟩, ⟨.PlusToken, "+"⟩, ⟨.NumberToken, "2"⟩,
   ⟨.RightParenthesisToken, ")"⟩, ⟨.MultiplyToken, "*"⟩, ⟨.NumberToken, "3"⟩]

/-- The tree `a + (b * c)`. -/
def sumWithProduct (a plus b times c : Token) : Expression :=
  binary (num a) plus (binary (num b) times (num c))

/-- The tree `(a + b) * c`. -/
def productOfSum (a plus b times c : Token) : Expression :=
  binary (binary (num a) plus (num b)) times (num c)

/-- The tokens of `"(1+2"`. -/
def tokens_open_group : List Token :=
  [⟨.LeftParenthesisToken, "("⟩, ⟨.NumberToken, "1"⟩, ⟨.PlusToken, "+"⟩, ⟨.NumberToken, "2"⟩]

/-- The tokens of `"sin(1"`. -/
def tokens_open_call_with_argument : List Token :=
  [⟨.Identifier, "sin"⟩, ⟨.LeftParenthesisToken, "("⟩, ⟨.NumberToken, "1"⟩]

/-- The tokens of `"sin("`. -/
def tokens_open_call : List Token :=
  [⟨.Identifier, "sin"⟩, ⟨.LeftParenthesisToken, "("⟩]

/-- The node `IdentifierExpression{Kind: "IdentifierExpression", Value: tok}`. -/
def ident (tok : Token) : Expression := .IdentifierExpression tok "IdentifierExpression"

/-- The tokens of `"sin()"`. -/
def tokens_call_without_arguments : List Token :=
  [⟨.Identifier, "sin"⟩, ⟨.LeftParenthesisToken, "("⟩, ⟨.RightParenthesisToken, ")"⟩]

/-- The tokens from the cursor on, `p.tokens[p.current:]`. -/
def Parser.remaining (p : Parser) : List Token := p.tokens.drop p.current

/-- The node `FuncExpression{Name: name, Args: args, Kind: "FuncExpression"}`. -/
def call (name : String) (args : List Expression) : Expression :=
  .FuncExpression name args "FuncExpression"

/-- The evaluation of the expression returns, a value or an error: it does
not panic. -/
def Returns (M : Float64) (e : Expression) : Prop :=
  ∃ (v : M.F) (err : Option String), evalExpression M e = .ret (v, err)

/-- The tokens of `"sin(1, sin())"`. -/
def tokens_call_with_faulting_argument : List Token :=
  [⟨.Identifier, "sin"⟩, ⟨.LeftParenthesisToken, "("⟩, ⟨.NumberToken, "1"⟩, ⟨.Comma, ","⟩,
   ⟨.Identifier, "sin"⟩, ⟨.LeftParenthesisToken, "("⟩, ⟨.RightParenthesisToken, ")"⟩,
   ⟨.RightParenthesisToken, ")"⟩]

/-- The tokens of `"sin(foo)"`. -/
def tokens_call_with_undefined_argument : List Token :=
  [⟨.Identifier, "sin"⟩, ⟨.LeftParenthesisToken, "("⟩, ⟨.Identifier, "foo"⟩,
   ⟨.RightParenthesisToken, ")"⟩]

/-- The tokens of `"1 foo"`. -/
def tokens_two_statements : List Token :=
  [⟨.NumberToken, "1"⟩, ⟨.Identifier, "foo"⟩]

/-- The tokens of `"sin(foo, sin())"`. -/
def tokens_call_with_undefined_and_faulting_argument : List Token :=
  [⟨.Identifier, "sin"⟩, ⟨.LeftParenthesisToken, "("⟩, ⟨.Identifier, "foo"⟩, ⟨.Comma, ","⟩,
   ⟨.Identifier, "sin"⟩, ⟨.LeftParenthesisToken, "("⟩, ⟨.RightParenthesisToken, ")"⟩,
   ⟨.RightParenthesisToken, ")"⟩]

/-- The bytes the tokenizer does not skip: all but the space and the newline. -/
def visible (c : Char) : Bool := c != ' ' && c != '\n'

/-- The bytes of the `Value` fields of the tokens, in order. -/
def valueChars (tokens : List Token) : List Char :=
  (tokens.map (fun t => t.Value.data)).flatten

/-- The call moved the cursor forward, within the token slice, and left the
slice alone. -/
def Advances (p q : Parser) : Prop :=
  q.tokens = p.tokens ∧ p.current < q.current ∧ q.current ≤ q.tokens.length

/-- The loop did not move the cursor back, kept it within the token slice if
it was there, and left the slice alone. -/
def Continues (p q : Parser) : Prop :=
  q.tokens = p.tokens ∧ p.current ≤ q.current ∧
    (p.current ≤ p.tokens.length → q.current ≤ q.tokens.length)

/-- The number of tokens from the cursor on, `len(p.tokens) - p.current`. -/
def Parser.left (p : Parser) : Nat := p.tokens.length - p.current

/-- The value of `p.current` when the loop of `Parse` is left through its
condition `p.current < len(p.tokens)`: the loop of `parseLoop`, returning the
cursor in place of the statements. -/
def parseLoopCursor : Nat → Parser → Option Nat
  | 0, _ => none
  | fuel + 1, p =>
    if p.current < p.tokens.length then
      match parseStatement fuel p with
      | .ok _ p => parseLoopCursor fuel p
      | _ => none
    else some p.current

/-- The token kinds of the five binary operators. -/
def isBinaryOperator : TokenType → Bool
  | .PlusToken => true
  | .MinusToken => true
  | .MultiplyToken => true
  | .DivideToken => true
  | .PowerToken => true
  | _ => false

mutual

/-- Every node of the tree is a `NumberExpression`, an `IdentifierExpression`,
a `FuncExpression` or a `BinaryExpression` whose operator token is one of the
five binary operators: no `UnaryExpression` and no `Program` occurs in it. -/
def parserShaped : Expression → Bool
  | .NumberExpression _ _ => true
  | .IdentifierExpression _ _ => true
  | .FuncExpression _ Args _ => allParserShaped Args
  | .BinaryExpression Left Right Op _ =>
    isBinaryOperator Op.Typ && parserShaped Left && parserShaped Right
  | .UnaryExpression _ _ _ => false
  | .Program _ _ => false

/-- Every tree of the list is `parserShaped`. -/
def allParserShaped : List Expression → Bool
  | [] => true
  | e :: rest => parserShaped e && allParserShaped rest

end

/-- The string `s` begins with the string `pre`. -/
def startsWith (pre s : String) : Prop := pre.data <+: s.data

/-- The errors that evaluation returns outside the `default` branches of the
evaluator: an error of `strconv.ParseFloat`, an undefined variable, an unknown
function. -/
def LookupError (M : Float64) (msg : String) : Prop :=
  (∃ s, M.ParseFloat s = .error msg) ∨ (∃ s, msg = "Undefined variable " ++ s) ∨
    (∃ s, msg = "Unknown function: " ++ s)

/-! ## The parser whose multiplication level accepts only Multiply

The same methods, with the one change that the loop of the multiplication
level is left at every token other than Multiply. -/

mutual

/-- Variant of the method `parseExpression`. -/
def parseExpressionMultiplyOnly : Nat → Parser → Parsed
  | 0, _ => .fuel
  | fuel + 1, p => parseAdditionMultiplyOnly fuel p

/-- Variant of the method `parseAddition`, up to its `for` loop. -/
def parseAdditionMultiplyOnly : Nat → Parser → Parsed
  | 0, _ => .fuel
  | fuel + 1, p =>
    match parseMultiplicationMultiplyOnly fuel p with
    | .ok left p => parseAdditionLoopMultiplyOnly fuel left p
    | r => r

/-- Variant of the `for` loop of `parseAddition`. -/
def parseAdditionLoopMultiplyOnly : Nat → Expression → Parser → Parsed
  | 0, _, _ => .fuel
  | fuel + 1, left, p =>
    match p.Get [] with
    | none => .ok left p
    | some token =>
      if token.Typ ≠ .PlusToken ∧ token.Typ ≠ .MinusToken then .ok left p
      else
        match parseMultiplicationMultiplyOnly fuel p.advance with
        | .ok right p =>
          parseAdditionLoopMultiplyOnly fuel
            (.BinaryExpression left right token "BinaryExpression") p
        | r => r

/-- Variant of the method `parseMultiplication`, up to its `for` loop. -/
def parseMultiplicationMultiplyOnly : Nat → Parser → Parsed
  | 0, _ => .fuel
  | fuel + 1, p =>
    match parsePowerMultiplyOnly fuel p with
    | .ok left p => parseMultiplicationLoopMultiplyOnly fuel left p
    | r => r

/-- Variant of the `for` loop of `parseMultiplication` whose condition accepts only
Multiply: a Divide token leaves the loop. -/
def parseMultiplicationLoopMultiplyOnly : Nat → Expression → Parser → Parsed
  | 0, _, _ => .fuel
  | fuel + 1, left, p =>
    match p.Get [] with
    | none => .ok left p
    | some token =>
      if token.Typ ≠ .MultiplyToken then .ok left p
      else
        match parsePowerMultiplyOnly fuel p.advance with
        | .ok right p =>
          parseMultiplicationLoopMultiplyOnly fuel
            (.BinaryExpression left right token "BinaryExpression") p
        | r => r

/-- Variant of the method `parsePower`, up to its `for` loop. -/
def parsePowerMultiplyOnly : Nat → Parser → Parsed
  | 0, _ => .fuel
  | fuel + 1, p =>
    match parsePrimaryMultiplyOnly fuel p with
    | .ok left p => parsePowerLoopMultiplyOnly fuel left p
    | r => r

/-- Variant of the `for` loop of `parsePower`. -/
def parsePowerLoopMultiplyOnly : Nat → Expression → Parser → Parsed
  | 0, _, _ => .fuel
  | fuel + 1, left, p =>
    match p.Get [] with
    | none => .ok left p
    | some token =>
      if token.Typ ≠ .PowerToken ∧ token.Typ ≠ .DivideToken then .ok left p
      else
        match parsePrimaryMultiplyOnly fuel p.advance with
        | .ok right p =>
          parsePowerLoopMultiplyOnly fuel
            (.BinaryExpression left right token "BinaryExpression") p
        | r => r

/-- Variant of the method `parsePrimary`. -/
def parsePrimaryMultiplyOnly : Nat → Parser → Parsed
  | 0, _ => .fuel
  | fuel + 1, p =>
    match p.Get [] with
    | none => .error "unexpected end of input"
    | some token =>
      match token.Typ with
      | .NumberToken => parseNumber p
      | .Identifier =>
        if (p.Get [p.current + 1]).isNone ||
            (p.Get [p.current + 1]).any (fun t => t.Typ != .LeftParenthesisToken) then
          parseIdentifier p
        else if (p.Get [p.current + 1]).any (fun t => t.Typ == .LeftParenthesisToken) then
          parseFunctionMultiplyOnly fuel p
        else .error ("unexpected token: " ++ token.Typ.String)
      | .LeftParenthesisToken => parseGroupMultiplyOnly fuel p
      | _ => .error ("unexpected token: " ++ token.Typ.String)

/-- Variant of the method `parseGroup`. -/
def parseGroupMultiplyOnly : Nat → Parser → Parsed
  | 0, _ => .fuel
  | fuel + 1, p =>
    match parseExpressionMultiplyOnly fuel p.advance with
    | .ok expr p =>
      match p.Get [] with
      | none => .panic nilDereference
      | some token =>
        if token.Typ ≠ .RightParenthesisToken then
          .error ("expected RightParenthesis but got " ++ token.Typ.String)
        else .ok expr p.advance
    | r => r

/-- Variant of the method `parseFunction`, up to its argument loop. -/
def parseFunctionMultiplyOnly : Nat → Parser → Parsed
  | 0, _ => .fuel
  | fuel + 1, p =>
    match p.Get [] with
    | none => .panic nilDereference
    | some nameToken =>
      let name := nameToken.Value
      let p := p.advance
      match p.Get [] with
      | none => .panic nilDereference
      | some token =>
        if token.Typ ≠ .LeftParenthesisToken then
          .error ("expected LeftParenthesis but got " ++ token.Typ.String)
        else
          let p := p.advance
          match p.Get [] with
          | none => .panic nilDereference
          | some token =>
            if token.Typ = .RightParenthesisToken then
              .ok (.FuncExpression name [] "FuncExpression") p.advance
            else parseFunctionLoopMultiplyOnly fuel name [] p

/-- Variant of the argument loop of `parseFunction`, followed by the rest of the method. -/
def parseFunctionLoopMultiplyOnly : Nat → String → List Expression → Parser → Parsed
  | 0, _, _, _ => .fuel
  | fuel + 1, name, args, p =>
    match p.Get [] with
    | none => parseFunctionClose name args p
    | some token =>
      if token.Typ = .RightParenthesisToken then parseFunctionClose name args p
      else
        match parseExpressionMultiplyOnly fuel p with
        | .ok arg p =>
          let args := args ++ [arg]
          if (p.Get []).any (fun t => t.Typ == .Comma) then
            parseFunctionLoopMultiplyOnly fuel name args p.advance
          else parseFunctionLoopMultiplyOnly fuel name args p
        | r => r

end

/-- Variant of the method `parseStatement`. -/
def parseStatementMultiplyOnly (fuel : Nat) (p : Parser) : Parsed := parseExpressionMultiplyOnly fuel p

/-- Variant of the `for` loop of `Parse` and its `return`. -/
def parseLoopMultiplyOnly : Nat → Parser → List Expression → Outcome (Program × Option String)
  | 0, _, _ => .fuel
  | fuel + 1, p, statements =>
    if p.current < p.tokens.length then
      match parseStatementMultiplyOnly fuel p with
      | .ok stmt p => parseLoopMultiplyOnly fuel p (statements ++ [stmt])
      | .error msg => .ret (⟨[], ""⟩, some msg)
      | .panic msg => .panic msg
      | .fuel => .fuel
    else .ret (⟨statements, "Program"⟩, none)

/-- Variant of the method `Parse`, on the variant parser. -/
def ParseMultiplyOnly (tokens : List Token) : Outcome (Program × Option String) :=
  parseLoopMultiplyOnly (parseFuel tokens) (NewParser tokens) []

/-- The tokens of `"1/2*3"`. -/
def tokens_divide_then_multiply : List Token :=
  [⟨.NumberToken, "1"⟩, ⟨.DivideToken, "/"⟩, ⟨.NumberToken, "2"⟩, ⟨.MultiplyToken, "*"⟩,
   ⟨.NumberToken, "3"⟩]

/-- The tokens of `"foo+sin()"`. -/
def tokens_undefined_plus_faulting_call : List Token :=
  [⟨.Identifier, "foo"⟩, ⟨.PlusToken, "+"⟩, ⟨.Identifier, "sin"⟩,
   ⟨.LeftParenthesisToken, "("⟩, ⟨.RightParenthesisToken, ")"⟩]

/-! ## Precedence and tokens -/

/-- One iteration of the loop of `Tokenize`, as an equation. -/
theorem tokenizeLoop_cons (fuel : Nat) (c : Char) (rest : List Char) (tokens : List Token) :
    tokenizeLoop (fuel + 1) (c :: rest) tokens =
    if c = ' ' then tokenizeLoop fuel rest tokens
    else if c = ',' then tokenizeLoop fuel rest (tokens ++ [⟨.Comma, ","⟩])
    else if c = '+' then tokenizeLoop fuel rest (tokens ++ [⟨.PlusToken, "+"⟩])
    else if c = '-' then tokenizeLoop fuel rest (tokens ++ [⟨.MinusToken, "-"⟩])
    else if c = '*' then
      if rest.head? = some '*' then tokenizeLoop fuel rest.tail (tokens ++ [⟨.PowerToken, "**"⟩])
      else tokenizeLoop fuel rest (tokens ++ [⟨.MultiplyToken, "*"⟩])
    else if c = '/' then tokenizeLoop fuel rest (tokens ++ [⟨.DivideToken, "/"⟩])
    else if c = '(' then tokenizeLoop fuel rest (tokens ++ [⟨.LeftParenthesisToken, "("⟩])
    else if c = ')' then tokenizeLoop fuel rest (tokens ++ [⟨.RightParenthesisToken, ")"⟩])
    else if c = '\n' then tokenizeLoop fuel rest tokens
    else if isDigit c then
      tokenizeLoop fuel ((c :: rest).dropWhile isNumberChar)
        (tokens ++ [⟨.NumberToken, String.mk ((c :: rest).takeWhile isNumberChar)⟩])
    else if isLetter c then
      tokenizeLoop fuel ((c :: rest).dropWhile isLetter)
        (tokens ++ [⟨.Identifier, String.mk ((c :: rest).takeWhile isLetter)⟩])
    else .panic ("unexpected character: " ++ String.singleton c) := rfl

theorem parseDecimal_one : parseDecimal "1" = .ok 1 := by
  simp [parseDecimal, digitsValue, isDigit]

theorem parseDecimal_two : parseDecimal "2" = .ok 2 := by
  simp [parseDecimal, digitsValue, isDigit]

theorem parseDecimal_three : parseDecimal "3" = .ok 3 := by
  simp [parseDecimal, digitsValue, isDigit]

/-- C1: multiplication binds tighter than addition and parentheses override
it.  For all Number tokens `a b c`, `[a, Plus, b, Multiply, c]` parses to the
single statement `a + (b * c)` and `[(, a, Plus, b, ), Multiply, c]` to the
single statement `(a + b) * c`; the token slices are those `Tokenize` returns
on `"1+2*3"` and `"(1+2)*3"`; in every arithmetic where the literals `1 2 3`
read as `x1 x2 x3` the two programs evaluate to `x1 + x2 * x3` and
`(x1 + x2) * x3`, and in exact arithmetic these are `7` and `9`. -/
theorem C1_precedence_and_grouping :
    (∀ va vb vc vplus vtimes vl vr : String,
      Parse [⟨.NumberToken, va⟩, ⟨.PlusToken, vplus⟩, ⟨.NumberToken, vb⟩,
          ⟨.MultiplyToken, vtimes⟩, ⟨.NumberToken, vc⟩]
        = .ret (⟨[sumWithProduct ⟨.NumberToken, va⟩ ⟨.PlusToken, vplus⟩ ⟨.NumberToken, vb⟩
            ⟨.MultiplyToken, vtimes⟩ ⟨.NumberToken, vc⟩], "Program"⟩, none) ∧
      Parse [⟨.LeftParenthesisToken, vl⟩, ⟨.NumberToken, va⟩, ⟨.PlusToken, vplus⟩,
          ⟨.NumberToken, vb⟩, ⟨.RightParenthesisToken, vr⟩, ⟨.MultiplyToken, vtimes⟩,
          ⟨.NumberToken, vc⟩]
        = .ret (⟨[productOfSum ⟨.NumberToken, va⟩ ⟨.PlusToken, vplus⟩ ⟨.NumberToken, vb⟩
            ⟨.MultiplyToken, vtimes⟩ ⟨.NumberToken, vc⟩], "Program"⟩, none)) ∧
    Tokenize "1+2*3" = .ret tokens_1_plus_2_times_3 ∧
    Tokenize "(1+2)*3" = .ret tokens_group_1_plus_2_times_3 ∧
    (∀ (M : Float64) (x1 x2 x3 : M.F),
      M.ParseFloat "1" = .ok x1 → M.ParseFloat "2" = .ok x2 → M.ParseFloat "3" = .ok x3 →
      Eval M ⟨[sumWithProduct ⟨.NumberToken, "1"⟩ ⟨.PlusToken, "+"⟩ ⟨.NumberToken, "2"⟩
          ⟨.MultiplyToken, "*"⟩ ⟨.NumberToken, "3"⟩], "Program"⟩
        = .ret (M.add x1 (M.mul x2 x3), none) ∧
      Eval M ⟨[productOfSum ⟨.NumberToken, "1"⟩ ⟨.PlusToken, "+"⟩ ⟨.NumberToken, "2"⟩
          ⟨.MultiplyToken, "*"⟩ ⟨.NumberToken, "3"⟩], "Program"⟩
        = .ret (M.mul (M.add x1 x2) x3, none)) ∧
    Exact.add 1 (Exact.mul 2 3) = (7 : ℚ) ∧ Exact.mul (Exact.add 1 2) 3 = (9 : ℚ) := by
  refine ⟨fun va vb vc vplus vtimes vl vr => ⟨rfl, rfl⟩, by decide, by decide, ?_, ?_, ?_⟩
  · intro M x1 x2 x3 h1 h2 h3
    simp [Eval, evalExpression, sumWithProduct, productOfSum, binary, num, applyBinaryOperator,
      h1, h2, h3]
  · show (1 : ℚ) + 2 * 3 = 7
    norm_num
  · show ((1 : ℚ) + 2) * 3 = 9
    norm_num

/-- Witness of C1 in exact arithmetic: the program of `"1+2*3"` evaluates to
`7` and that of `"(1+2)*3"` to `9`. -/
theorem C1_precedence_and_grouping_witness :
    Eval Exact ⟨[sumWithProduct ⟨.NumberToken, "1"⟩ ⟨.PlusToken, "+"⟩ ⟨.NumberToken, "2"⟩
        ⟨.MultiplyToken, "*"⟩ ⟨.NumberToken, "3"⟩], "Program"⟩ = .ret ((7 : ℚ), none) ∧
    Eval Exact ⟨[productOfSum ⟨.NumberToken, "1"⟩ ⟨.PlusToken, "+"⟩ ⟨.NumberToken, "2"⟩
        ⟨.MultiplyToken, "*"⟩ ⟨.NumberToken, "3"⟩], "Program"⟩ = .ret ((9 : ℚ), none) := by
  have h := C1_precedence_and_grouping.2.2.2.1 Exact (1 : ℚ) (2 : ℚ) (3 : ℚ)
    parseDecimal_one parseDecimal_two parseDecimal_three
  have h7 := C1_precedence_and_grouping.2.2.2.2.1
  have h9 := C1_precedence_and_grouping.2.2.2.2.2
  rw [h7, h9] at h
  exact h

/-- C2: `Tokenize("1+2*3")` is the five tokens `1 + 2 * 3` and
`Tokenize("2**3")` the three tokens `2 ** 3`.  In general an iteration of the
loop at two adjacent `*` appends one Power token and moves past both, and an
iteration at a `*` that is not followed by `*` appends one Multiply token and
moves past one character. -/
theorem C2_tokenize_examples :
    Tokenize "1+2*3" = .ret [⟨.NumberToken, "1"⟩, ⟨.PlusToken, "+"⟩, ⟨.NumberToken, "2"⟩,
      ⟨.MultiplyToken, "*"⟩, ⟨.NumberToken, "3"⟩] ∧
    Tokenize "2**3" = .ret [⟨.NumberToken, "2"⟩, ⟨.PowerToken, "**"⟩, ⟨.NumberToken, "3"⟩] ∧
    (∀ (fuel : Nat) (rest : List Char) (tokens : List Token),
      tokenizeLoop (fuel + 1) ('*' :: '*' :: rest) tokens
        = tokenizeLoop fuel rest (tokens ++ [⟨.PowerToken, "**"⟩])) ∧
    (∀ (fuel : Nat) (rest : List Char) (tokens : List Token), rest.head? ≠ some '*' →
      tokenizeLoop (fuel + 1) ('*' :: rest) tokens
        = tokenizeLoop fuel rest (tokens ++ [⟨.MultiplyToken, "*"⟩])) := by
  refine ⟨by decide, by decide, ?_, ?_⟩
  · intro fuel rest tokens
    rfl
  · intro fuel rest tokens h
    rw [tokenizeLoop_cons]
    simp [h]

/-- Witness of C2: the lone `*` of `"*3"`. -/
theorem C2_tokenize_examples_witness :
    tokenizeLoop 2 ['*', '3'] [] = tokenizeLoop 1 ['3'] [⟨.MultiplyToken, "*"⟩] :=
  C2_tokenize_examples.2.2.2 1 ['3'] [] (by decide)

/-! ## Empty input, missing parentheses -/

/-- On spaces and newlines the loop of `Tokenize` appends nothing. -/
theorem tokenizeLoop_blank (l : List Char) :
    ∀ (fuel : Nat) (tokens : List Token), l.length ≤ fuel →
      (∀ c ∈ l, c = ' ' ∨ c = '\n') → tokenizeLoop fuel l tokens = .ret tokens := by
  induction l with
  | nil => intro fuel tokens _ _; cases fuel <;> rfl
  | cons c rest ih =>
    intro fuel tokens hlen hblank
    cases fuel with
    | zero => simp at hlen
    | succ fuel =>
      have hrest := ih fuel tokens (by simpa using hlen)
        (fun d hd => hblank d (List.mem_cons_of_mem c hd))
      rw [tokenizeLoop_cons]
      rcases hblank c (List.mem_cons_self c rest) with hc | hc
      · simp [hc, hrest]
      · subst hc
        simpa using hrest

/-- C3 (as the code has it): on every input made of spaces and newlines only,
the empty string included, `Tokenize` returns no tokens; `Parse` of the empty
token slice returns a `Program` with zero statements and no error; `Eval` of
that `Program` does not return an error value: it panics on `Statements[0]`
with an index out of range. -/
theorem C3_blank_input_panics_in_eval (input : String)
    (hblank : ∀ c ∈ input.data, c = ' ' ∨ c = '\n') :
    Tokenize input = .ret [] ∧
    Parse [] = .ret (⟨[], "Program"⟩, none) ∧
    ∀ M : Float64, Eval M ⟨[], "Program"⟩ = .panic indexOutOfRange :=
  ⟨tokenizeLoop_blank input.data _ [] (Nat.le_refl _) hblank, rfl, fun _ => rfl⟩

/-- Witness of C3 on the input of a space, a newline and a space. -/
theorem C3_blank_input_panics_in_eval_witness :
    Tokenize " \n " = .ret [] ∧
    Parse [] = .ret (⟨[], "Program"⟩, none) ∧
    ∀ M : Float64, Eval M ⟨[], "Program"⟩ = .panic indexOutOfRange :=
  C3_blank_input_panics_in_eval " \n " (by decide)

/-- Counterexample to C3 as stated: on the empty string `Tokenize` returns no
tokens and `Parse` an empty `Program` without error, but `Eval` of that
`Program` returns no error value (it panics). -/
theorem C3_empty_input_counterexample :
    Tokenize "" = .ret [] ∧
    Parse [] = .ret (⟨[], "Program"⟩, none) ∧
    ¬ ∃ (v : ℚ) (err : String), Eval Exact ⟨[], "Program"⟩ = .ret (v, some err) := by
  refine ⟨rfl, rfl, ?_⟩
  rintro ⟨v, err, h⟩
  have hp : Eval Exact ⟨[], "Program"⟩ = .panic indexOutOfRange := rfl
  rw [hp] at h
  cases h

/-- C4 (the code at the failing inputs): on the tokens of `"(1+2"`, of
`"sin(1"` and of `"sin("`, which end where a RightParen is missing, `Parse`
returns no error: it panics with a nil pointer dereference, reading
`token.Type` (or `p.Get().Type`) through the nil token of the end of input.
When a token other than RightParen stands there, as in `"(1+2 3"`, the same
branch returns the error `expected RightParenthesis but got Number`. -/
theorem C4_missing_paren_at_end_panics :
    Tokenize "(1+2" = .ret tokens_open_group ∧
    Parse tokens_open_group = .panic nilDereference ∧
    Tokenize "sin(1" = .ret tokens_open_call_with_argument ∧
    Parse tokens_open_call_with_argument = .panic nilDereference ∧
    Tokenize "sin(" = .ret tokens_open_call ∧
    Parse tokens_open_call = .panic nilDereference ∧
    Parse (tokens_open_group ++ [⟨.NumberToken, "3"⟩])
      = .ret (⟨[], ""⟩, some "expected RightParenthesis but got Number") :=
  ⟨by decide, rfl, by decide, rfl, by decide, rfl, rfl⟩

/-! ## Inputs on which the tokenizer panics -/

theorem Char.le_iff_toNat_le (a b : Char) : a ≤ b ↔ a.toNat ≤ b.toNat := Iff.rfl

theorem Char.eq_iff_toNat_eq (c d : Char) : c = d ↔ c.toNat = d.toNat := by
  constructor
  · rintro rfl; rfl
  · intro h; rw [← Char.ofNat_toNat c, h, Char.ofNat_toNat]

theorem isDigit_iff (c : Char) : isDigit c = true ↔ 48 ≤ c.toNat ∧ c.toNat ≤ 57 := by
  simp [isDigit, Char.le_iff_toNat_le]

theorem isLetter_iff (c : Char) :
    isLetter c = true ↔ (97 ≤ c.toNat ∧ c.toNat ≤ 122) ∨ (65 ≤ c.toNat ∧ c.toNat ≤ 90) := by
  simp [isLetter, Char.le_iff_toNat_le]

theorem isNumberChar_iff (c : Char) :
    isNumberChar c = true ↔ (48 ≤ c.toNat ∧ c.toNat ≤ 57) ∨ c.toNat = 46 := by
  simp [isNumberChar, isDigit_iff, Char.eq_iff_toNat_eq]

theorem not_isNumberChar_of_isLetter {c : Char} (h : isLetter c = true) :
    isNumberChar c = false := by
  rw [isLetter_iff] at h
  rw [Bool.eq_false_iff, Ne, isNumberChar_iff]
  omega

theorem ne_dot_of_isDigit {c : Char} (h : isDigit c = true) : c ≠ '.' := by
  rw [isDigit_iff] at h
  rw [Ne, Char.eq_iff_toNat_eq]
  simp
  omega

theorem ne_dot_of_not_isNumberChar {c : Char} (h : isNumberChar c = false) : c ≠ '.' := by
  rintro rfl
  simp [isNumberChar] at h

theorem strayFrom_cons (b : Bool) (c : Char) (rest : List Char) :
    strayFrom b (c :: rest)
      = (!recognised c || (c == '.' && !b) || strayFrom (isNumberChar c) rest) := rfl

theorem strayFrom_plain {c : Char} (hr : recognised c = true) (hn : isNumberChar c = false)
    (b : Bool) (rest : List Char) : strayFrom b (c :: rest) = strayFrom false rest := by
  simp [strayFrom_cons, hr, hn, ne_dot_of_not_isNumberChar hn]

theorem strayFrom_digit {c : Char} (hd : isDigit c = true) (b : Bool) (rest : List Char) :
    strayFrom b (c :: rest) = strayFrom true rest := by
  have hr : recognised c = true := by simp [recognised, hd]
  have hn : isNumberChar c = true := by simp [isNumberChar, hd]
  simp [strayFrom_cons, hr, hn, ne_dot_of_isDigit hd]

theorem strayFrom_dropWhile_number (l : List Char) :
    strayFrom true l = strayFrom false (l.dropWhile isNumberChar) := by
  induction l with
  | nil => rfl
  | cons c rest ih =>
    by_cases hn : isNumberChar c = true
    · have hr : recognised c = true := by
        simp only [isNumberChar, Bool.or_eq_true, beq_iff_eq] at hn
        rcases hn with hd | hdot
        · simp [recognised, hd]
        · simp [recognised, hdot]
      rw [List.dropWhile_cons, if_pos hn, ← ih]
      simp [strayFrom_cons, hr, hn]
    · have hn2 : isNumberChar c = false := by simpa using hn
      have hdot : (c == '.') = false := by simpa using ne_dot_of_not_isNumberChar hn2
      rw [List.dropWhile_cons, if_neg hn]
      simp [strayFrom_cons, hdot]

theorem strayFrom_dropWhile_letter (l : List Char) :
    strayFrom false l = strayFrom false (l.dropWhile isLetter) := by
  induction l with
  | nil => rfl
  | cons c rest ih =>
    by_cases hl : isLetter c = true
    · have hr : recognised c = true := by simp [recognised, hl]
      rw [List.dropWhile_cons, if_pos hl, ← ih]
      exact strayFrom_plain hr (not_isNumberChar_of_isLetter hl) false rest
    · rw [List.dropWhile_cons, if_neg hl]

theorem length_dropWhile_le (f : Char → Bool) (l : List Char) :
    (l.dropWhile f).length ≤ l.length := by
  induction l with
  | nil => simp
  | cons c rest ih =>
    rw [List.dropWhile_cons]
    split
    · exact Nat.le_succ_of_le ih
    · exact Nat.le_refl _

/-- The loop of `Tokenize`, given at least `len(input) - i` steps, panics when
`strayFrom false` holds of the remaining input and returns otherwise. -/
theorem tokenizeLoop_outcome (fuel : Nat) :
    ∀ (l : List Char) (tokens : List Token), l.length ≤ fuel →
      (strayFrom false l = true → ∃ msg, tokenizeLoop fuel l tokens = .panic msg) ∧
      (strayFrom false l = false → ∃ ts, tokenizeLoop fuel l tokens = .ret ts) := by
  induction fuel with
  | zero =>
    intro l tokens hlen
    have hl : l = [] := List.length_eq_zero.mp (Nat.le_zero.mp hlen)
    subst hl
    exact ⟨fun h => by simp [strayFrom] at h, fun _ => ⟨tokens, rfl⟩⟩
  | succ fuel ih =>
    intro l tokens hlen
    cases l with
    | nil => exact ⟨fun h => by simp [strayFrom] at h, fun _ => ⟨tokens, rfl⟩⟩
    | cons c rest =>
      have hrest : rest.length ≤ fuel := by simpa using hlen
      have plain : ∀ ts : List Token, recognised c = true → isNumberChar c = false →
          (strayFrom false (c :: rest) = true → ∃ msg, tokenizeLoop fuel rest ts = .panic msg) ∧
          (strayFrom false (c :: rest) = false → ∃ r, tokenizeLoop fuel rest ts = .ret r) := by
        intro ts hr hn
        rw [strayFrom_plain hr hn]
        exact ih rest ts hrest
      rw [tokenizeLoop_cons]
      by_cases h1 : c = ' '
      · rw [if_pos h1]; exact plain _ (by subst h1; decide) (by subst h1; decide)
      rw [if_neg h1]
      by_cases h2 : c = ','
      · rw [if_pos h2]; exact plain _ (by subst h2; decide) (by subst h2; decide)
      rw [if_neg h2]
      by_cases h3 : c = '+'
      · rw [if_pos h3]; exact plain _ (by subst h3; decide) (by subst h3; decide)
      rw [if_neg h3]
      by_cases h4 : c = '-'
      · rw [if_pos h4]; exact plain _ (by subst h4; decide) (by subst h4; decide)
      rw [if_neg h4]
      by_cases h5 : c = '*'
      · rw [if_pos h5]
        by_cases h6 : rest.head? = some '*'
        · rw [if_pos h6]
          cases rest with
          | nil => simp at h6
          | cons d rest2 =>
            have hd : d = '*' := by simpa using h6
            subst h5
            subst hd
            rw [strayFrom_plain (by decide) (by decide), strayFrom_plain (by decide) (by decide)]
            exact ih rest2 _ (Nat.le_of_succ_le (by simpa using hrest))
        · rw [if_neg h6]; exact plain _ (by subst h5; decide) (by subst h5; decide)
      rw [if_neg h5]
      by_cases h7 : c = '/'
      · rw [if_pos h7]; exact plain _ (by subst h7; decide) (by subst h7; decide)
      rw [if_neg h7]
      by_cases h8 : c = '('
      · rw [if_pos h8]; exact plain _ (by subst h8; decide) (by subst h8; decide)
      rw [if_neg h8]
      by_cases h9 : c = ')'
      · rw [if_pos h9]; exact plain _ (by subst h9; decide) (by subst h9; decide)
      rw [if_neg h9]
      by_cases h10 : c = '\n'
      · rw [if_pos h10]; exact plain _ (by subst h10; decide) (by subst h10; decide)
      rw [if_neg h10]
      by_cases h11 : isDigit c = true
      · rw [if_pos h11]
        have hn : isNumberChar c = true := by simp [isNumberChar, h11]
        rw [strayFrom_digit h11, strayFrom_dropWhile_number, List.dropWhile_cons, if_pos hn]
        exact ih _ _ (Nat.le_trans (length_dropWhile_le _ _) hrest)
      rw [if_neg h11]
      by_cases h12 : isLetter c = true
      · rw [if_pos h12]
        have hr : recognised c = true := by simp [recognised, h12]
        rw [strayFrom_plain hr (not_isNumberChar_of_isLetter h12), strayFrom_dropWhile_letter,
          List.dropWhile_cons, if_pos h12]
        exact ih _ _ (Nat.le_trans (length_dropWhile_le _ _) hrest)
      rw [if_neg h12]
      refine ⟨fun _ => ⟨_, rfl⟩, fun h => ?_⟩
      exfalso
      have hcons := strayFrom_cons false c rest
      rw [h] at hcons
      by_cases hdot : c = '.'
      · simp [hdot] at hcons
      · simp [recognised, h1, h2, h3, h4, h5, h7, h8, h9, h10, h11, h12, hdot] at hcons

theorem prevFlag_cons (b : Bool) (c : Char) (pre : List Char) :
    ((c :: pre).getLast?.map isNumberChar).getD b
      = (pre.getLast?.map isNumberChar).getD (isNumberChar c) := by
  rw [List.getLast?_cons]
  cases pre.getLast? <;> rfl

/-- What `strayFrom` scans for, said with positions. -/
theorem strayFrom_iff (l : List Char) : ∀ b : Bool,
    strayFrom b l = true ↔
      (∃ c ∈ l, recognised c = false) ∨
      (∃ pre post, l = pre ++ '.' :: post ∧ (pre.getLast?.map isNumberChar).getD b = false) := by
  induction l with
  | nil =>
    intro b
    constructor
    · intro h; simp [strayFrom] at h
    · rintro (⟨c, hc, _⟩ | ⟨pre, post, h, _⟩)
      · simp at hc
      · simp at h
  | cons c rest ih =>
    intro b
    rw [strayFrom_cons]
    constructor
    · intro h
      simp only [Bool.or_eq_true, Bool.and_eq_true, Bool.not_eq_true', beq_iff_eq] at h
      rcases h with (h | ⟨hdot, hb⟩) | h
      · exact Or.inl ⟨c, List.mem_cons_self c rest, h⟩
      · exact Or.inr ⟨[], rest, by simp [hdot], by simpa using hb⟩
      · rcases (ih _).mp h with ⟨d, hd, hrec⟩ | ⟨pre, post, hl, hflag⟩
        · exact Or.inl ⟨d, List.mem_cons_of_mem c hd, hrec⟩
        · refine Or.inr ⟨c :: pre, post, by simp [hl], ?_⟩
          rw [prevFlag_cons]
          exact hflag
    · intro h
      simp only [Bool.or_eq_true, Bool.and_eq_true, Bool.not_eq_true', beq_iff_eq]
      rcases h with ⟨d, hd, hrec⟩ | ⟨pre, post, hl, hflag⟩
      · rcases List.mem_cons.mp hd with hdc | hd
        · subst hdc; exact Or.inl (Or.inl hrec)
        · exact Or.inr ((ih _).mpr (Or.inl ⟨d, hd, hrec⟩))
      · cases pre with
        | nil =>
          have hc : c = '.' := by simpa using (List.cons.inj hl).1
          exact Or.inl (Or.inr ⟨hc, by simpa using hflag⟩)
        | cons e pre =>
          have he : c = e := (List.cons.inj hl).1
          have hrest : rest = pre ++ '.' :: post := (List.cons.inj hl).2
          subst he
          rw [prevFlag_cons] at hflag
          exact Or.inr ((ih _).mpr (Or.inr ⟨pre, post, hrest, hflag⟩))

theorem strayDot_iff (l : List Char) :
    strayDot l ↔
      ∃ pre post, l = pre ++ '.' :: post ∧ (pre.getLast?.map isNumberChar).getD false = false := by
  constructor
  · rintro ⟨pre, post, hl, h⟩
    refine ⟨pre, post, hl, ?_⟩
    cases hlast : pre.getLast? with
    | none => rfl
    | some c => simpa using h c hlast
  · rintro ⟨pre, post, hl, h⟩
    refine ⟨pre, post, hl, ?_⟩
    intro c hc
    rw [hc] at h
    simpa using h

/-- C5 (as the code has it): `Tokenize` panics on an input if and only if the
input contains a byte of none of the recognised classes, or a `.` that does
not continue a number (a `.` that is the first byte or follows a byte that is
neither a digit nor a `.`); on every other input, and only there, `Tokenize`
returns a token sequence. -/
theorem C5_tokenize_panics_iff (input : String) :
    ((∃ msg, Tokenize input = .panic msg) ↔
      ((∃ c ∈ input.data, recognised c = false) ∨ strayDot input.data)) ∧
    ((∃ tokens, Tokenize input = .ret tokens) ↔
      ¬ ((∃ c ∈ input.data, recognised c = false) ∨ strayDot input.data)) := by
  have hout := tokenizeLoop_outcome input.data.length input.data [] (Nat.le_refl _)
  have hiff := strayFrom_iff input.data false
  rw [← strayDot_iff] at hiff
  rw [← hiff]
  unfold Tokenize
  constructor
  · constructor
    · rintro ⟨msg, hmsg⟩
      by_contra hno
      obtain ⟨ts, hts⟩ := hout.2 (by simpa using hno)
      rw [hts] at hmsg
      cases hmsg
    · exact hout.1
  · constructor
    · rintro ⟨ts, hts⟩ hyes
      obtain ⟨msg, hmsg⟩ := hout.1 hyes
      rw [hmsg] at hts
      cases hts
    · intro hno
      exact hout.2 (by simpa using hno)

/-- Counterexample to C5 as stated: every byte of the input `"."` belongs to a
recognised class, and `Tokenize` panics on it. -/
theorem C5_lone_dot_counterexample :
    (∀ c ∈ ".".data, recognised c = true) ∧
    Tokenize "." = .panic "unexpected character: ." := by
  constructor
  · decide
  · decide

/-! ## The evaluator -/

/-- C6: evaluating an `IdentifierExpression` named `s` returns the registered
value with no error when `s` is `"pi"`, `"e"` or `"testvar"`, the keys of
`MathConstants`, and for every other `s` (such as `"foo"` and `"PI"`) returns
`0` with the error `Undefined variable s`; so it succeeds exactly on the three
keys.  `Eval` of a program whose first statement is the node does the same. -/
theorem C6_identifier_lookup (M : Float64) (ty : TokenType) (s Kind : String) :
    (s = "pi" → evalExpression M (.IdentifierExpression ⟨ty, s⟩ Kind) = .ret (M.Pi, none)) ∧
    (s = "e" → evalExpression M (.IdentifierExpression ⟨ty, s⟩ Kind) = .ret (M.E, none)) ∧
    (s = "testvar" →
      evalExpression M (.IdentifierExpression ⟨ty, s⟩ Kind) = .ret (M.one, none)) ∧
    (s ≠ "pi" → s ≠ "e" → s ≠ "testvar" →
      evalExpression M (.IdentifierExpression ⟨ty, s⟩ Kind)
        = .ret (M.zero, some ("Undefined variable " ++ s))) ∧
    ((∃ v, evalExpression M (.IdentifierExpression ⟨ty, s⟩ Kind) = .ret (v, none)) ↔
      (s = "pi" ∨ s = "e" ∨ s = "testvar")) ∧
    (∀ (rest : List Expression) (k : String),
      Eval M ⟨.IdentifierExpression ⟨ty, s⟩ Kind :: rest, k⟩
        = evalExpression M (.IdentifierExpression ⟨ty, s⟩ Kind)) ∧
    evalExpression M (ident ⟨.Identifier, "foo"⟩)
      = .ret (M.zero, some "Undefined variable foo") ∧
    evalExpression M (ident ⟨.Identifier, "PI"⟩)
      = .ret (M.zero, some "Undefined variable PI") := by
  have hpi : s = "pi" →
      evalExpression M (.IdentifierExpression ⟨ty, s⟩ Kind) = .ret (M.Pi, none) := by
    rintro rfl; rfl
  have he : s = "e" →
      evalExpression M (.IdentifierExpression ⟨ty, s⟩ Kind) = .ret (M.E, none) := by
    rintro rfl; rfl
  have ht : s = "testvar" →
      evalExpression M (.IdentifierExpression ⟨ty, s⟩ Kind) = .ret (M.one, none) := by
    rintro rfl; rfl
  have hno : s ≠ "pi" → s ≠ "e" → s ≠ "testvar" →
      evalExpression M (.IdentifierExpression ⟨ty, s⟩ Kind)
        = .ret (M.zero, some ("Undefined variable " ++ s)) := by
    intro h1 h2 h3
    have b1 : (s == "pi") = false := by simpa using h1
    have b2 : (s == "e") = false := by simpa using h2
    have b3 : (s == "testvar") = false := by simpa using h3
    simp only [evalExpression, evalIdentifierExpression, MathConstants, List.lookup, b1, b2, b3]
  refine ⟨hpi, he, ht, hno, ?_, fun _ _ => rfl, rfl, rfl⟩
  constructor
  · rintro ⟨v, hv⟩
    by_contra hkeys
    simp only [not_or] at hkeys
    rw [hno hkeys.1 hkeys.2.1 hkeys.2.2] at hv
    cases hv
  · rintro (h | h | h)
    · exact ⟨_, hpi h⟩
    · exact ⟨_, he h⟩
    · exact ⟨_, ht h⟩

/-- Witness of C6 in exact arithmetic: `testvar` evaluates to `1`, and the
name `Pi`, which is not a key, to the error. -/
theorem C6_identifier_lookup_witness :
    evalExpression Exact (ident ⟨.Identifier, "testvar"⟩) = .ret ((1 : ℚ), none) ∧
    evalExpression Exact (ident ⟨.Identifier, "Pi"⟩)
      = .ret ((0 : ℚ), some ("Undefined variable " ++ "Pi")) :=
  ⟨(C6_identifier_lookup Exact .Identifier "testvar" "IdentifierExpression").2.2.1 rfl,
   (C6_identifier_lookup Exact .Identifier "Pi" "IdentifierExpression").2.2.2.1
     (by decide) (by decide) (by decide)⟩

/-- C7 (the code at the failing input): `Parse` accepts the tokens of `"sin()"`
as one statement, the call of `sin` with zero arguments, and `Eval` of the
returned `Program` neither returns a number nor an error: it panics on
`args[0]` with an index out of range, in every arithmetic. -/
theorem C7_call_without_arguments_panics :
    Tokenize "sin()" = .ret tokens_call_without_arguments ∧
    Parse tokens_call_without_arguments
      = .ret (⟨[.FuncExpression "sin" [] "FuncExpression"], "Program"⟩, none) ∧
    ∀ M : Float64, Eval M ⟨[.FuncExpression "sin" [] "FuncExpression"], "Program"⟩
      = .panic indexOutOfRange :=
  ⟨by decide, rfl, fun _ => rfl⟩

/-! ## The parser on the remaining tokens -/

theorem Parser.Get_current (p : Parser) : p.Get [] = p.remaining.head? := by
  unfold Parser.Get Parser.remaining
  simp only []
  split
  · next h => rw [List.drop_eq_nil_iff.mpr h]; rfl
  · exact (List.head?_drop _ _).symm

theorem Parser.remaining_advance (p : Parser) : p.advance.remaining = p.remaining.tail := by
  unfold Parser.remaining Parser.advance
  exact (List.tail_drop _ _).symm

theorem Parser.tokens_advance (p : Parser) : p.advance.tokens = p.tokens := rfl

theorem parsePrimary_succ (fuel : Nat) (p : Parser) :
    parsePrimary (fuel + 1) p =
    match p.Get [] with
    | none => .error "unexpected end of input"
    | some token =>
      match token.Typ with
      | .NumberToken => parseNumber p
      | .Identifier =>
        if (p.Get [p.current + 1]).isNone ||
            (p.Get [p.current + 1]).any (fun t => t.Typ != .LeftParenthesisToken) then
          parseIdentifier p
        else if (p.Get [p.current + 1]).any (fun t => t.Typ == .LeftParenthesisToken) then
          parseFunction fuel p
        else .error ("unexpected token: " ++ token.Typ.String)
      | .LeftParenthesisToken => parseGroup fuel p
      | _ => .error ("unexpected token: " ++ token.Typ.String) := by
  rw [parsePrimary]

theorem parsePowerLoop_succ (fuel : Nat) (left : Expression) (p : Parser) :
    parsePowerLoop (fuel + 1) left p =
    match p.Get [] with
    | none => .ok left p
    | some token =>
      if token.Typ ≠ .PowerToken ∧ token.Typ ≠ .DivideToken then .ok left p
      else
        match parsePrimary fuel p.advance with
        | .ok right p =>
          parsePowerLoop fuel (.BinaryExpression left right token "BinaryExpression") p
        | r => r := by
  rw [parsePowerLoop]

theorem parsePower_succ (fuel : Nat) (p : Parser) :
    parsePower (fuel + 1) p =
    match parsePrimary fuel p with
    | .ok left p => parsePowerLoop fuel left p
    | r => r := by
  rw [parsePower]

theorem parseExpression_succ (fuel : Nat) (p : Parser) :
    parseExpression (fuel + 1) p = parseAddition fuel p := by
  rw [parseExpression]

theorem parseAddition_succ (fuel : Nat) (p : Parser) :
    parseAddition (fuel + 1) p =
    match parseMultiplication fuel p with
    | .ok left p => parseAdditionLoop fuel left p
    | r => r := by
  rw [parseAddition]

theorem parseAdditionLoop_succ (fuel : Nat) (left : Expression) (p : Parser) :
    parseAdditionLoop (fuel + 1) left p =
    match p.Get [] with
    | none => .ok left p
    | some token =>
      if token.Typ ≠ .PlusToken ∧ token.Typ ≠ .MinusToken then .ok left p
      else
        match parseMultiplication fuel p.advance with
        | .ok right p =>
          parseAdditionLoop fuel (.BinaryExpression left right token "BinaryExpression") p
        | r => r := by
  rw [parseAdditionLoop]

theorem parseMultiplication_succ (fuel : Nat) (p : Parser) :
    parseMultiplication (fuel + 1) p =
    match parsePower fuel p with
    | .ok left p => parseMultiplicationLoop fuel left p
    | r => r := by
  rw [parseMultiplication]

theorem parseMultiplicationLoop_succ (fuel : Nat) (left : Expression) (p : Parser) :
    parseMultiplicationLoop (fuel + 1) left p =
    match p.Get [] with
    | none => .ok left p
    | some token =>
      if token.Typ ≠ .MultiplyToken ∧ token.Typ ≠ .DivideToken then .ok left p
      else
        match parsePower fuel p.advance with
        | .ok right p =>
          parseMultiplicationLoop fuel (.BinaryExpression left right token "BinaryExpression") p
        | r => r := by
  rw [parseMultiplicationLoop]

theorem parseLoop_succ (fuel : Nat) (p : Parser) (statements : List Expression) :
    parseLoop (fuel + 1) p statements =
    if p.current < p.tokens.length then
      match parseStatement fuel p with
      | .ok stmt p => parseLoop fuel p (statements ++ [stmt])
      | .error msg => .ret (⟨[], ""⟩, some msg)
      | .panic msg => .panic msg
      | .fuel => .fuel
    else .ret (⟨statements, "Program"⟩, none) := by
  rw [parseLoop]

/-- At a Number token `parsePrimary` returns its node and moves one token on. -/
theorem parsePrimary_number {fuel : Nat} {p : Parser} {x : Token} {more : List Token}
    (hf : 1 ≤ fuel) (hrem : p.remaining = x :: more) (hx : x.Typ = .NumberToken) :
    parsePrimary fuel p = .ok (num x) p.advance := by
  obtain ⟨f, rfl⟩ : ∃ f, fuel = f + 1 := ⟨fuel - 1, by omega⟩
  have hget : p.Get [] = some x := by rw [Parser.Get_current, hrem]; rfl
  rw [parsePrimary_succ]
  simp only [hget, hx, parseNumber]
  rfl

/-- The loop of `parsePower` stops at a token that is neither Power nor Divide
and at the end of the input. -/
theorem parsePowerLoop_stop {fuel : Nat} {p : Parser} (left : Expression) (hf : 1 ≤ fuel)
    (hstop : ∀ t, p.remaining.head? = some t → t.Typ ≠ .PowerToken ∧ t.Typ ≠ .DivideToken) :
    parsePowerLoop fuel left p = .ok left p := by
  obtain ⟨f, rfl⟩ : ∃ f, fuel = f + 1 := ⟨fuel - 1, by omega⟩
  rw [parsePowerLoop_succ, Parser.Get_current]
  cases h : p.remaining.head? with
  | none => rfl
  | some t => simp only [if_pos (hstop t h)]

/-- The loop of `parseMultiplication` stops at a token that is neither
Multiply nor Divide and at the end of the input. -/
theorem parseMultiplicationLoop_stop {fuel : Nat} {p : Parser} (left : Expression)
    (hf : 1 ≤ fuel)
    (hstop : ∀ t, p.remaining.head? = some t →
      t.Typ ≠ .MultiplyToken ∧ t.Typ ≠ .DivideToken) :
    parseMultiplicationLoop fuel left p = .ok left p := by
  obtain ⟨f, rfl⟩ : ∃ f, fuel = f + 1 := ⟨fuel - 1, by omega⟩
  rw [parseMultiplicationLoop_succ, Parser.Get_current]
  cases h : p.remaining.head? with
  | none => rfl
  | some t => simp only [if_pos (hstop t h)]

/-- The loop of `parseAddition` stops at a token that is neither Plus nor
Minus and at the end of the input. -/
theorem parseAdditionLoop_stop {fuel : Nat} {p : Parser} (left : Expression) (hf : 1 ≤ fuel)
    (hstop : ∀ t, p.remaining.head? = some t → t.Typ ≠ .PlusToken ∧ t.Typ ≠ .MinusToken) :
    parseAdditionLoop fuel left p = .ok left p := by
  obtain ⟨f, rfl⟩ : ∃ f, fuel = f + 1 := ⟨fuel - 1, by omega⟩
  rw [parseAdditionLoop_succ, Parser.Get_current]
  cases h : p.remaining.head? with
  | none => rfl
  | some t => simp only [if_pos (hstop t h)]

/-- A Number token that no Power or Divide token follows is a whole power-level
operand. -/
theorem parsePower_number {fuel : Nat} {p : Parser} {x : Token} {more : List Token}
    (hf : 2 ≤ fuel) (hrem : p.remaining = x :: more) (hx : x.Typ = .NumberToken)
    (hstop : ∀ t, more.head? = some t → t.Typ ≠ .PowerToken ∧ t.Typ ≠ .DivideToken) :
    parsePower fuel p = .ok (num x) p.advance := by
  obtain ⟨f, rfl⟩ : ∃ f, fuel = f + 1 := ⟨fuel - 1, by omega⟩
  rw [parsePower_succ, parsePrimary_number (by omega) hrem hx]
  simp only []
  apply parsePowerLoop_stop _ (by omega)
  rw [Parser.remaining_advance, hrem]
  exact hstop

/-- A Number token that no Power, Divide or Multiply token follows is a whole
multiplication-level operand. -/
theorem parseMultiplication_number {fuel : Nat} {p : Parser} {x : Token} {more : List Token}
    (hf : 3 ≤ fuel) (hrem : p.remaining = x :: more) (hx : x.Typ = .NumberToken)
    (hstop : ∀ t, more.head? = some t →
      t.Typ ≠ .PowerToken ∧ t.Typ ≠ .DivideToken ∧ t.Typ ≠ .MultiplyToken) :
    parseMultiplication fuel p = .ok (num x) p.advance := by
  obtain ⟨f, rfl⟩ : ∃ f, fuel = f + 1 := ⟨fuel - 1, by omega⟩
  rw [parseMultiplication_succ,
    parsePower_number (by omega) hrem hx (fun t ht => ⟨(hstop t ht).1, (hstop t ht).2.1⟩)]
  simp only []
  apply parseMultiplicationLoop_stop _ (by omega)
  rw [Parser.remaining_advance, hrem]
  exact fun t ht => ⟨(hstop t ht).2.2, (hstop t ht).2.1⟩

/-- When `parseExpression` consumes a non-empty token slice to its end, `Parse`
returns the one statement. -/
theorem Parse_single {tokens : List Token} {e : Expression} {q : Parser}
    (hne : tokens ≠ [])
    (hparse : parseExpression (6 * tokens.length + 6) (NewParser tokens) = .ok e q)
    (hend : q.remaining = []) :
    Parse tokens = .ret (⟨[e], "Program"⟩, none) := by
  have hpos : 0 < tokens.length := List.length_pos.mpr hne
  have hq : ¬ q.current < q.tokens.length := by
    have := List.drop_eq_nil_iff.mp hend
    omega
  unfold Parse parseFuel
  rw [parseLoop_succ, if_pos (by simpa [NewParser] using hpos)]
  unfold parseStatement
  rw [hparse]
  simp only []
  obtain ⟨f, hf⟩ : ∃ f, 6 * tokens.length + 6 = f + 1 := ⟨6 * tokens.length + 5, rfl⟩
  rw [hf, parseLoop_succ, if_neg hq]
  rfl

/-! ## Left-associative chains -/

theorem head_operandTokens {rest : List (Token × Token)} {t : Token}
    (h : (operandTokens rest).head? = some t) : ∃ ox ∈ rest, ox.1 = t := by
  cases rest with
  | nil => simp [operandTokens] at h
  | cons ox rest =>
    obtain ⟨o, x⟩ := ox
    simp only [operandTokens, List.head?_cons, Option.some.injEq] at h
    exact ⟨(o, x), List.mem_cons_self _ _, h⟩

theorem chainFrom_cons (left : Expression) (o x : Token) (rest : List (Token × Token)) :
    chainFrom left ((o, x) :: rest) = chainFrom (binary left o (num x)) rest := rfl

/-- The loop of `parsePower` folds a run of Power and Divide tokens, each
followed by a Number token, from the left. -/
theorem parsePowerLoop_chain (rest : List (Token × Token)) :
    ∀ (left : Expression) (p : Parser) (fuel : Nat), p.remaining = operandTokens rest →
      (∀ ox ∈ rest, (ox.1.Typ = .PowerToken ∨ ox.1.Typ = .DivideToken) ∧
        ox.2.Typ = .NumberToken) →
      rest.length + 1 ≤ fuel →
      ∃ q, parsePowerLoop fuel left p = .ok (chainFrom left rest) q ∧ q.remaining = [] := by
  induction rest with
  | nil =>
    intro left p fuel hrem _ hf
    refine ⟨p, parsePowerLoop_stop left (by omega) ?_, hrem⟩
    intro t ht
    rw [hrem] at ht
    simp [operandTokens] at ht
  | cons ox rest ih =>
    obtain ⟨o, x⟩ := ox
    intro left p fuel hrem hall hf
    obtain ⟨f, rfl⟩ : ∃ f, fuel = f + 1 := ⟨fuel - 1, by omega⟩
    have hox : (o.Typ = .PowerToken ∨ o.Typ = .DivideToken) ∧ x.Typ = .NumberToken :=
      hall (o, x) (List.mem_cons_self _ _)
    have hf' : rest.length + 1 ≤ f := by simpa using hf
    have hget : p.Get [] = some o := by rw [Parser.Get_current, hrem]; rfl
    have hcond : ¬ (o.Typ ≠ .PowerToken ∧ o.Typ ≠ .DivideToken) := by
      rcases hox.1 with h | h <;> simp [h]
    have hadv : p.advance.remaining = x :: operandTokens rest := by
      rw [Parser.remaining_advance, hrem]; rfl
    have hadv2 : p.advance.advance.remaining = operandTokens rest := by
      rw [Parser.remaining_advance, hadv]; rfl
    have hoperand : parsePrimary f p.advance = .ok (num x) p.advance.advance :=
      parsePrimary_number (by omega) hadv hox.2
    rw [parsePowerLoop_succ]
    simp only [hget, if_neg hcond, hoperand]
    exact ih _ _ f hadv2 (fun oy hoy => hall oy (List.mem_cons_of_mem _ hoy)) hf'

/-- The loop of `parseMultiplication` folds a run of Multiply tokens, each
followed by a Number token, from the left. -/
theorem parseMultiplicationLoop_chain (rest : List (Token × Token)) :
    ∀ (left : Expression) (p : Parser) (fuel : Nat), p.remaining = operandTokens rest →
      (∀ ox ∈ rest, ox.1.Typ = .MultiplyToken ∧ ox.2.Typ = .NumberToken) →
      rest.length + 3 ≤ fuel →
      ∃ q, parseMultiplicationLoop fuel left p = .ok (chainFrom left rest) q ∧
        q.remaining = [] := by
  induction rest with
  | nil =>
    intro left p fuel hrem _ hf
    refine ⟨p, parseMultiplicationLoop_stop left (by omega) ?_, hrem⟩
    intro t ht
    rw [hrem] at ht
    simp [operandTokens] at ht
  | cons ox rest ih =>
    obtain ⟨o, x⟩ := ox
    intro left p fuel hrem hall hf
    obtain ⟨f, rfl⟩ : ∃ f, fuel = f + 1 := ⟨fuel - 1, by omega⟩
    have hox : o.Typ = .MultiplyToken ∧ x.Typ = .NumberToken :=
      hall (o, x) (List.mem_cons_self _ _)
    have hf' : rest.length + 3 ≤ f := by simpa using hf
    have hget : p.Get [] = some o := by rw [Parser.Get_current, hrem]; rfl
    have hcond : ¬ (o.Typ ≠ .MultiplyToken ∧ o.Typ ≠ .DivideToken) := by simp [hox.1]
    have hadv : p.advance.remaining = x :: operandTokens rest := by
      rw [Parser.remaining_advance, hrem]; rfl
    have hadv2 : p.advance.advance.remaining = operandTokens rest := by
      rw [Parser.remaining_advance, hadv]; rfl
    have hoperand : parsePower f p.advance = .ok (num x) p.advance.advance := by
      apply parsePower_number (by omega) hadv hox.2
      intro t ht
      obtain ⟨oy, hoy, rfl⟩ := head_operandTokens ht
      have := (hall oy (List.mem_cons_of_mem _ hoy)).1
      simp [this]
    rw [parseMultiplicationLoop_succ]
    simp only [hget, if_neg hcond, hoperand]
    exact ih _ _ f hadv2 (fun oy hoy => hall oy (List.mem_cons_of_mem _ hoy)) hf'

/-- The loop of `parseAddition` folds a run of Plus and Minus tokens, each
followed by a Number token, from the left. -/
theorem parseAdditionLoop_chain (rest : List (Token × Token)) :
    ∀ (left : Expression) (p : Parser) (fuel : Nat), p.remaining = operandTokens rest →
      (∀ ox ∈ rest, (ox.1.Typ = .PlusToken ∨ ox.1.Typ = .MinusToken) ∧
        ox.2.Typ = .NumberToken) →
      rest.length + 4 ≤ fuel →
      ∃ q, parseAdditionLoop fuel left p = .ok (chainFrom left rest) q ∧ q.remaining = [] := by
  induction rest with
  | nil =>
    intro left p fuel hrem _ hf
    refine ⟨p, parseAdditionLoop_stop left (by omega) ?_, hrem⟩
    intro t ht
    rw [hrem] at ht
    simp [operandTokens] at ht
  | cons ox rest ih =>
    obtain ⟨o, x⟩ := ox
    intro left p fuel hrem hall hf
    obtain ⟨f, rfl⟩ : ∃ f, fuel = f + 1 := ⟨fuel - 1, by omega⟩
    have hox : (o.Typ = .PlusToken ∨ o.Typ = .MinusToken) ∧ x.Typ = .NumberToken :=
      hall (o, x) (List.mem_cons_self _ _)
    have hf' : rest.length + 4 ≤ f := by simpa using hf
    have hget : p.Get [] = some o := by rw [Parser.Get_current, hrem]; rfl
    have hcond : ¬ (o.Typ ≠ .PlusToken ∧ o.Typ ≠ .MinusToken) := by
      rcases hox.1 with h | h <;> simp [h]
    have hadv : p.advance.remaining = x :: operandTokens rest := by
      rw [Parser.remaining_advance, hrem]; rfl
    have hadv2 : p.advance.advance.remaining = operandTokens rest := by
      rw [Parser.remaining_advance, hadv]; rfl
    have hoperand : parseMultiplication f p.advance = .ok (num x) p.advance.advance := by
      apply parseMultiplication_number (by omega) hadv hox.2
      intro t ht
      obtain ⟨oy, hoy, rfl⟩ := head_operandTokens ht
      rcases (hall oy (List.mem_cons_of_mem _ hoy)).1 with h | h <;> simp [h]
    rw [parseAdditionLoop_succ]
    simp only [hget, if_neg hcond, hoperand]
    exact ih _ _ f hadv2 (fun oy hoy => hall oy (List.mem_cons_of_mem _ hoy)) hf'

theorem length_operandTokens (rest : List (Token × Token)) :
    (operandTokens rest).length = 2 * rest.length := by
  induction rest with
  | nil => rfl
  | cons ox rest ih =>
    obtain ⟨o, x⟩ := ox
    simp only [operandTokens, List.length_cons, ih]
    omega

theorem remaining_NewParser (tokens : List Token) : (NewParser tokens).remaining = tokens := rfl

/-- C8: every precedence level is left-associative.  For every Number token
`x0` and every list of pairs (operator token, Number token) whose operators
are all of one level (all Plus or Minus, or all Multiply, or all Power or
Divide), `Parse` of `x0, o1, x1, ..., on, xn` returns exactly one statement
and no error, the left-deep chain `((x0 o1 x1) o2 x2) ... on xn`. -/
theorem C8_left_associative (x0 : Token) (rest : List (Token × Token))
    (hx0 : x0.Typ = .NumberToken) (hxs : ∀ ox ∈ rest, ox.2.Typ = .NumberToken)
    (hlevel : (∀ ox ∈ rest, ox.1.Typ = .PlusToken ∨ ox.1.Typ = .MinusToken) ∨
      (∀ ox ∈ rest, ox.1.Typ = .MultiplyToken) ∨
      (∀ ox ∈ rest, ox.1.Typ = .PowerToken ∨ ox.1.Typ = .DivideToken)) :
    Parse (x0 :: operandTokens rest)
      = .ret (⟨[chainFrom (num x0) rest], "Program"⟩, none) := by
  have hrem : (NewParser (x0 :: operandTokens rest)).remaining = x0 :: operandTokens rest := rfl
  have hadv : (NewParser (x0 :: operandTokens rest)).advance.remaining = operandTokens rest := by
    rw [Parser.remaining_advance, hrem]; rfl
  have hlen : (x0 :: operandTokens rest).length = 2 * rest.length + 1 := by
    rw [List.length_cons, length_operandTokens]
  obtain ⟨f, hf, hle⟩ : ∃ f, 6 * (x0 :: operandTokens rest).length + 6 = f + 4 ∧
      rest.length + 4 ≤ f := ⟨12 * rest.length + 8, by omega, by omega⟩
  suffices h : ∃ q, parseExpression (6 * (x0 :: operandTokens rest).length + 6)
      (NewParser (x0 :: operandTokens rest)) = .ok (chainFrom (num x0) rest) q ∧
      q.remaining = [] by
    obtain ⟨q, hq, hend⟩ := h
    exact Parse_single (List.cons_ne_nil _ _) hq hend
  rw [hf, parseExpression_succ, parseAddition_succ, parseMultiplication_succ, parsePower_succ,
    parsePrimary_number (by omega) hrem hx0]
  simp only []
  rcases hlevel with hadd | hmul | hpow
  · have hP : parsePowerLoop f (num x0) (NewParser (x0 :: operandTokens rest)).advance
        = .ok (num x0) (NewParser (x0 :: operandTokens rest)).advance := by
      apply parsePowerLoop_stop _ (by omega)
      intro t ht
      rw [hadv] at ht
      obtain ⟨oy, hoy, rfl⟩ := head_operandTokens ht
      rcases hadd oy hoy with h | h <;> simp [h]
    have hM : parseMultiplicationLoop (f + 1) (num x0)
        (NewParser (x0 :: operandTokens rest)).advance
        = .ok (num x0) (NewParser (x0 :: operandTokens rest)).advance := by
      apply parseMultiplicationLoop_stop _ (by omega)
      intro t ht
      rw [hadv] at ht
      obtain ⟨oy, hoy, rfl⟩ := head_operandTokens ht
      rcases hadd oy hoy with h | h <;> simp [h]
    rw [hP]
    simp only [hM]
    exact parseAdditionLoop_chain rest _ _ _ hadv (fun ox hox => ⟨hadd ox hox, hxs ox hox⟩)
      (by omega)
  · have hP : parsePowerLoop f (num x0) (NewParser (x0 :: operandTokens rest)).advance
        = .ok (num x0) (NewParser (x0 :: operandTokens rest)).advance := by
      apply parsePowerLoop_stop _ (by omega)
      intro t ht
      rw [hadv] at ht
      obtain ⟨oy, hoy, rfl⟩ := head_operandTokens ht
      simp [hmul oy hoy]
    obtain ⟨q, hq, hend⟩ := parseMultiplicationLoop_chain rest (num x0) _ (f + 1) hadv
      (fun ox hox => ⟨hmul ox hox, hxs ox hox⟩) (by omega)
    rw [hP]
    simp only [hq]
    refine ⟨q, parseAdditionLoop_stop _ (by omega) ?_, hend⟩
    intro t ht
    rw [hend] at ht
    simp at ht
  · obtain ⟨q, hq, hend⟩ := parsePowerLoop_chain rest (num x0) _ f hadv
      (fun ox hox => ⟨hpow ox hox, hxs ox hox⟩) (by omega)
    have hnone : ∀ t, q.remaining.head? = some t → False := by
      intro t ht
      rw [hend] at ht
      simp at ht
    have hM : parseMultiplicationLoop (f + 1) (chainFrom (num x0) rest) q
        = .ok (chainFrom (num x0) rest) q :=
      parseMultiplicationLoop_stop _ (by omega) (fun t ht => (hnone t ht).elim)
    rw [hq]
    simp only [hM]
    exact ⟨q, parseAdditionLoop_stop _ (by omega) (fun t ht => (hnone t ht).elim), hend⟩

/-- Witness of C8: the tokens of `"2**3**2"` parse as `(2**3)**2`. -/
theorem C8_left_associative_witness :
    Parse [⟨.NumberToken, "2"⟩, ⟨.PowerToken, "**"⟩, ⟨.NumberToken, "3"⟩, ⟨.PowerToken, "**"⟩,
        ⟨.NumberToken, "2"⟩]
      = .ret (⟨[binary (binary (num ⟨.NumberToken, "2"⟩) ⟨.PowerToken, "**"⟩
            (num ⟨.NumberToken, "3"⟩)) ⟨.PowerToken, "**"⟩ (num ⟨.NumberToken, "2"⟩)],
          "Program"⟩, none) :=
  C8_left_associative ⟨.NumberToken, "2"⟩
    [(⟨.PowerToken, "**"⟩, ⟨.NumberToken, "3"⟩), (⟨.PowerToken, "**"⟩, ⟨.NumberToken, "2"⟩)]
    rfl (by decide) (Or.inr (Or.inr (by decide)))

/-! ## Binary expressions in the evaluator -/

theorem evalExpression_binary (M : Float64) (Left Right : Expression) (Op : Token)
    (Kind : String) :
    evalExpression M (.BinaryExpression Left Right Op Kind) =
    match evalExpression M Left with
    | .ret (left, err) =>
      match evalExpression M Right with
      | .ret (right, err2) =>
        if err ≠ none then .ret (M.zero, err)
        else if err2 ≠ none then .ret (M.zero, err2)
        else .ret (applyBinaryOperator M Op left right)
      | .panic msg => .panic msg
      | .fuel => .fuel
    | .panic msg => .panic msg
    | .fuel => .fuel := by
  rw [evalExpression]

theorem evalExpression_num_Exact_one :
    evalExpression Exact (num ⟨.NumberToken, "1"⟩) = .ret ((1 : ℚ), none) := by
  simp [num, evalExpression, parseDecimal_one]

theorem evalExpression_num_Exact_two :
    evalExpression Exact (num ⟨.NumberToken, "2"⟩) = .ret ((2 : ℚ), none) := by
  simp [num, evalExpression, parseDecimal_two]

/-- C9: a Divide token that follows a power-level operand is consumed by the
loop of `parsePower`.  For all Number tokens `a b c`, `[a, Divide, b, Power, c]`
parses to the single statement `(a / b) ** c` and `[a, Multiply, b, Divide, c]`
to the single statement `a * (b / c)`; the Divide node keeps the Divide token
as its operator, and on a node whose operator is a Divide token, with operands
that evaluate to `x` and `y`, the evaluator returns `x / y`. -/
theorem C9_divide_at_power_level :
    (∀ va vb vc vdiv vpow vmul : String,
      Parse [⟨.NumberToken, va⟩, ⟨.DivideToken, vdiv⟩, ⟨.NumberToken, vb⟩,
          ⟨.PowerToken, vpow⟩, ⟨.NumberToken, vc⟩]
        = .ret (⟨[binary (binary (num ⟨.NumberToken, va⟩) ⟨.DivideToken, vdiv⟩
              (num ⟨.NumberToken, vb⟩)) ⟨.PowerToken, vpow⟩ (num ⟨.NumberToken, vc⟩)],
            "Program"⟩, none) ∧
      Parse [⟨.NumberToken, va⟩, ⟨.MultiplyToken, vmul⟩, ⟨.NumberToken, vb⟩,
          ⟨.DivideToken, vdiv⟩, ⟨.NumberToken, vc⟩]
        = .ret (⟨[binary (num ⟨.NumberToken, va⟩) ⟨.MultiplyToken, vmul⟩
              (binary (num ⟨.NumberToken, vb⟩) ⟨.DivideToken, vdiv⟩
                (num ⟨.NumberToken, vc⟩))],
            "Program"⟩, none)) ∧
    (∀ (M : Float64) (Left Right : Expression) (vdiv Kind : String) (x y : M.F),
      evalExpression M Left = .ret (x, none) → evalExpression M Right = .ret (y, none) →
      evalExpression M (.BinaryExpression Left Right ⟨.DivideToken, vdiv⟩ Kind)
        = .ret (M.div x y, none)) := by
  refine ⟨fun va vb vc vdiv vpow vmul => ⟨rfl, rfl⟩, ?_⟩
  intro M Left Right vdiv Kind x y hl hr
  rw [evalExpression_binary, hl, hr]
  rfl

/-- Witness of C9 in exact arithmetic: the node `1 / 2` evaluates to `1 / 2`. -/
theorem C9_divide_at_power_level_witness :
    evalExpression Exact (binary (num ⟨.NumberToken, "1"⟩) ⟨.DivideToken, "/"⟩
        (num ⟨.NumberToken, "2"⟩))
      = .ret (((1 : ℚ) / 2), none) :=
  C9_divide_at_power_level.2 Exact _ _ "/" "BinaryExpression" (1 : ℚ) (2 : ℚ)
    evalExpression_num_Exact_one evalExpression_num_Exact_two

/-- C10 (as the code has it): error propagation in a `BinaryExpression`.  Both
operands are evaluated, the left one first: a panic of the left operand, or of
the right operand after the left one returned (with or without an error), is
the outcome of the node.  When both return: if the left operand returned the error
`e1` the node returns `(0, e1)`, whatever the right operand returned; if the
left returned no error and the right the error `e2` the node returns
`(0, e2)`; if neither returned an error the node returns the operator applied
to the two values; and the node returns without error only in this last
case. -/
theorem C10_binary_error_propagation (M : Float64) (Left Right : Expression) (Op : Token)
    (Kind : String) :
    (∀ (v w : M.F) (e1 : String) (err2 : Option String),
      evalExpression M Left = .ret (v, some e1) → evalExpression M Right = .ret (w, err2) →
      evalExpression M (.BinaryExpression Left Right Op Kind) = .ret (M.zero, some e1)) ∧
    (∀ (v w : M.F) (e2 : String),
      evalExpression M Left = .ret (v, none) → evalExpression M Right = .ret (w, some e2) →
      evalExpression M (.BinaryExpression Left Right Op Kind) = .ret (M.zero, some e2)) ∧
    (∀ (v w : M.F),
      evalExpression M Left = .ret (v, none) → evalExpression M Right = .ret (w, none) →
      evalExpression M (.BinaryExpression Left Right Op Kind)
        = .ret (applyBinaryOperator M Op v w)) ∧
    (∀ (r : M.F), evalExpression M (.BinaryExpression Left Right Op Kind) = .ret (r, none) →
      ∃ v w, evalExpression M Left = .ret (v, none) ∧
        evalExpression M Right = .ret (w, none)) ∧
    (∀ msg, evalExpression M Left = .panic msg →
      evalExpression M (.BinaryExpression Left Right Op Kind) = .panic msg) ∧
    (∀ (v : M.F) (err : Option String) (msg : String),
      evalExpression M Left = .ret (v, err) → evalExpression M Right = .panic msg →
      evalExpression M (.BinaryExpression Left Right Op Kind) = .panic msg) := by
  refine ⟨?_, ?_, ?_, ?_, ?_, ?_⟩
  · intro v w e1 err2 hl hr
    rw [evalExpression_binary, hl, hr]
    simp
  · intro v w e2 hl hr
    rw [evalExpression_binary, hl, hr]
    simp
  · intro v w hl hr
    rw [evalExpression_binary, hl, hr]
    simp
  · intro r h
    rw [evalExpression_binary] at h
    cases hl : evalExpression M Left with
    | panic msg => rw [hl] at h; cases h
    | fuel => rw [hl] at h; cases h
    | ret a =>
      obtain ⟨v, err⟩ := a
      cases hr : evalExpression M Right with
      | panic msg => rw [hl, hr] at h; cases h
      | fuel => rw [hl, hr] at h; cases h
      | ret b =>
        obtain ⟨w, err2⟩ := b
        rw [hl, hr] at h
        cases err with
        | some e1 => simp at h
        | none =>
          cases err2 with
          | some e2 => simp at h
          | none => exact ⟨v, w, rfl, rfl⟩
  · intro msg hl
    rw [evalExpression_binary, hl]
  · intro v err msg hl hr
    rw [evalExpression_binary, hl, hr]

/-- Witness of C10 in exact arithmetic: in `foo + bar` both operands fail and
the node returns the error of the left one. -/
theorem C10_binary_error_propagation_witness :
    evalExpression Exact (binary (ident ⟨.Identifier, "foo"⟩) ⟨.PlusToken, "+"⟩
        (ident ⟨.Identifier, "bar"⟩))
      = .ret ((0 : ℚ), some "Undefined variable foo") :=
  (C10_binary_error_propagation Exact (ident ⟨.Identifier, "foo"⟩) (ident ⟨.Identifier, "bar"⟩)
    ⟨.PlusToken, "+"⟩ "BinaryExpression").1 (0 : ℚ) (0 : ℚ) "Undefined variable foo"
    (some "Undefined variable bar") rfl rfl

/-- Counterexample to C10 as stated: the tokens of `"foo+sin()"` parse to the
node `foo + sin()`, whose left operand evaluates to the error
`Undefined variable foo`; the node does not evaluate to `(0, e1)` with that
error: the right operand is evaluated too and its panic is the outcome. -/
theorem C10_faulting_right_operand_counterexample :
    Tokenize "foo+sin()" = .ret tokens_undefined_plus_faulting_call ∧
    Parse tokens_undefined_plus_faulting_call
      = .ret (⟨[binary (ident ⟨.Identifier, "foo"⟩) ⟨.PlusToken, "+"⟩ (call "sin" [])],
          "Program"⟩, none) ∧
    evalExpression Exact (ident ⟨.Identifier, "foo"⟩)
      = .ret ((0 : ℚ), some "Undefined variable foo") ∧
    evalExpression Exact (binary (ident ⟨.Identifier, "foo"⟩) ⟨.PlusToken, "+"⟩
        (call "sin" []))
      = .panic indexOutOfRange :=
  ⟨by decide, rfl, rfl, rfl⟩

/-! ## Function calls and statements in the evaluator -/

theorem evalExpression_func (M : Float64) (Name : String) (Args : List Expression)
    (Kind : String) :
    evalExpression M (.FuncExpression Name Args Kind) =
    match evalArgs M Args with
    | .ret args => applyFunction M Name args
    | .panic msg => .panic msg
    | .fuel => .fuel := by
  rw [evalExpression]

theorem evalArgs_cons (M : Float64) (arg : Expression) (rest : List Expression) :
    evalArgs M (arg :: rest) =
    match evalExpression M arg with
    | .ret (value, _) =>
      match evalArgs M rest with
      | .ret values => .ret (value :: values)
      | .panic msg => .panic msg
      | .fuel => .fuel
    | .panic msg => .panic msg
    | .fuel => .fuel := by
  rw [evalArgs]

theorem evalArgs_nil (M : Float64) : evalArgs M [] = .ret [] := by
  rw [evalArgs]

/-- When every argument's evaluation returns, so does the argument loop. -/
theorem evalArgs_of_returns (M : Float64) (l : List Expression)
    (h : ∀ e ∈ l, Returns M e) : ∃ vs, evalArgs M l = .ret vs := by
  induction l with
  | nil => exact ⟨[], evalArgs_nil M⟩
  | cons a rest ih =>
    obtain ⟨v, err, ha⟩ := h a (List.mem_cons_self _ _)
    obtain ⟨vs, hvs⟩ := ih (fun e he => h e (List.mem_cons_of_mem _ he))
    exact ⟨v :: vs, by rw [evalArgs_cons, ha, hvs]⟩

/-- Only `args[0]` is passed to the function. -/
theorem applyFunction_cons (M : Float64) (Name : String) (v : M.F) (vs : List M.F) :
    applyFunction M Name (v :: vs) = applyFunction M Name [v] := by
  unfold applyFunction
  cases (mathFuncs M).lookup Name <;> rfl

/-- A call whose further arguments all return evaluates like the call of the
first argument alone. -/
theorem evalExpression_func_cons (M : Float64) (Name : String) (a : Expression)
    (rest : List Expression) (Kind Kind' : String) (hrest : ∀ e ∈ rest, Returns M e) :
    evalExpression M (.FuncExpression Name (a :: rest) Kind)
      = evalExpression M (.FuncExpression Name [a] Kind') := by
  obtain ⟨vs, hvs⟩ := evalArgs_of_returns M rest hrest
  rw [evalExpression_func, evalExpression_func, evalArgs_cons, evalArgs_cons, hvs, evalArgs_nil]
  cases ha : evalExpression M a with
  | ret r =>
    obtain ⟨v, err⟩ := r
    exact applyFunction_cons M Name v vs
  | panic msg => rfl
  | fuel => rfl

/-- C11 (as the code has it): for every function name, every expression `a`
and every list `rest` of further expressions whose evaluations return (a
value or an error), evaluating the call with the arguments `a :: rest` gives
exactly the outcome of evaluating the call with the one argument `a`: the
further arguments are evaluated, and their values and errors are dropped. -/
theorem C11_further_arguments_dropped (M : Float64) (Name : String) (a : Expression)
    (rest : List Expression) (Kind Kind' : String) (hrest : ∀ e ∈ rest, Returns M e) :
    evalExpression M (.FuncExpression Name (a :: rest) Kind)
      = evalExpression M (.FuncExpression Name [a] Kind') :=
  evalExpression_func_cons M Name a rest Kind Kind' hrest

/-- Witness of C11 in exact arithmetic: `abs(1, foo, 2)` evaluates like
`abs(1)`, although the second argument fails. -/
theorem C11_further_arguments_dropped_witness :
    evalExpression Exact
        (call "abs" [num ⟨.NumberToken, "1"⟩, ident ⟨.Identifier, "foo"⟩,
          num ⟨.NumberToken, "2"⟩])
      = evalExpression Exact (call "abs" [num ⟨.NumberToken, "1"⟩]) :=
  C11_further_arguments_dropped Exact "abs" (num ⟨.NumberToken, "1"⟩)
    [ident ⟨.Identifier, "foo"⟩, num ⟨.NumberToken, "2"⟩] "FuncExpression" "FuncExpression"
    (by
      intro e he
      simp only [List.mem_cons, List.mem_singleton, List.not_mem_nil, or_false] at he
      rcases he with rfl | rfl
      · exact ⟨(0 : ℚ), some "Undefined variable foo", rfl⟩
      · exact ⟨(2 : ℚ), none, evalExpression_num_Exact_two⟩)

/-- Counterexample to C11 as stated: the tokens of `"sin(1, sin())"` parse to
the call of `sin` with the arguments `1` and `sin()`; evaluating it panics,
in the loop over the arguments, while the call `sin(1)` of the first argument
alone returns. -/
theorem C11_faulting_argument_counterexample :
    Tokenize "sin(1, sin())" = .ret tokens_call_with_faulting_argument ∧
    Parse tokens_call_with_faulting_argument
      = .ret (⟨[call "sin" [num ⟨.NumberToken, "1"⟩, call "sin" []]], "Program"⟩, none) ∧
    evalExpression Exact (call "sin" [num ⟨.NumberToken, "1"⟩, call "sin" []])
      = .panic indexOutOfRange ∧
    evalExpression Exact (call "sin" [num ⟨.NumberToken, "1"⟩])
      = .ret (Exact.Sin (1 : ℚ), none) := by
  refine ⟨by decide, rfl, ?_, ?_⟩
  · rw [call, evalExpression_func, evalArgs_cons, evalExpression_num_Exact_one]
    rfl
  · rw [call, evalExpression_func, evalArgs_cons, evalExpression_num_Exact_one]
    rfl

theorem evalExpression_program (M : Float64) (Statements : List Expression) (Kind : String) :
    evalExpression M (.Program Statements Kind) =
    match Statements with
    | [] => .panic indexOutOfRange
    | s :: _ => evalExpression M s := by
  cases Statements <;> simp [evalExpression]

theorem evalExpression_unary (M : Float64) (Right : Expression) (Op : Token) (Kind : String) :
    evalExpression M (.UnaryExpression Right Op Kind)
      = .ret (M.zero, some "Unknown expression type: calc.UnaryExpression") := by
  simp [evalExpression]

theorem applyBinaryOperator_error_zero (M : Float64) (Op : Token) (l r v : M.F) (err : String)
    (h : applyBinaryOperator M Op l r = (v, some err)) : v = M.zero := by
  unfold applyBinaryOperator at h
  split at h <;> simp at h
  exact h.1.symm

theorem applyFunction_error_zero (M : Float64) (Name : String) (args : List M.F) (v : M.F)
    (err : String) (h : applyFunction M Name args = .ret (v, some err)) : v = M.zero := by
  unfold applyFunction at h
  split at h
  · split at h <;> simp at h
  · simp at h
    exact h.1.symm

/-- Every error is returned together with the value `0`. -/
theorem evalExpression_error_zero (M : Float64) :
    (e : Expression) → (v : M.F) → (err : String) →
      evalExpression M e = .ret (v, some err) → v = M.zero
  | .NumberExpression Value _, v, err, h => by
    rw [evalExpression] at h
    split at h <;> simp at h
    exact h.1.symm
  | .FuncExpression Name Args _, v, err, h => by
    rw [evalExpression_func] at h
    split at h
    · exact applyFunction_error_zero M Name _ v err h
    · cases h
    · cases h
  | .BinaryExpression Left Right Op _, v, err, h => by
    rw [evalExpression_binary] at h
    split at h
    · split at h
      · split at h
        · simp at h; exact h.1.symm
        · split at h
          · simp at h; exact h.1.symm
          · exact applyBinaryOperator_error_zero M Op _ _ v err (by simpa using h)
      · cases h
      · cases h
    · cases h
    · cases h
  | .IdentifierExpression Value _, v, err, h => by
    rw [evalExpression] at h
    unfold evalIdentifierExpression at h
    split at h <;> simp at h
    exact h.1.symm
  | .Program [] _, v, err, h => by
    rw [evalExpression_program] at h
    cases h
  | .Program (s :: _) _, v, err, h =>
    evalExpression_error_zero M s v err (by rw [evalExpression_program] at h; exact h)
  | .UnaryExpression Right Op Kind, v, err, h => by
    rw [evalExpression_unary] at h
    simp at h
    exact h.1.symm

/-- C12 (as the code has it): an argument error is dropped by a function call.
For every registered function name with transform `F` and every call with at
least one argument, if the evaluation of `args[0]` returns an error and the
evaluations of the further arguments return, the call returns `(F(0), nil)`;
the tokens of `"sin(foo)"` parse to the call of `sin` on `foo` and evaluate to
`sin(0)` with no error. -/
theorem C12_argument_error_dropped (M : Float64) :
    (∀ (Name : String) (F : M.F → M.F) (a : Expression) (rest : List Expression)
        (Kind : String) (v : M.F) (err : String),
      (mathFuncs M).lookup Name = some F → evalExpression M a = .ret (v, some err) →
      (∀ e ∈ rest, Returns M e) →
      evalExpression M (.FuncExpression Name (a :: rest) Kind) = .ret (F M.zero, none)) ∧
    Tokenize "sin(foo)" = .ret tokens_call_with_undefined_argument ∧
    Parse tokens_call_with_undefined_argument
      = .ret (⟨[call "sin" [ident ⟨.Identifier, "foo"⟩]], "Program"⟩, none) ∧
    Eval M ⟨[call "sin" [ident ⟨.Identifier, "foo"⟩]], "Program"⟩
      = .ret (M.Sin M.zero, none) := by
  refine ⟨?_, by decide, rfl, rfl⟩
  intro Name F a rest Kind v err hF ha hrest
  have hv : v = M.zero := evalExpression_error_zero M a v err ha
  subst hv
  rw [evalExpression_func_cons M Name a rest Kind Kind hrest, evalExpression_func,
    evalArgs_cons, ha, evalArgs_nil]
  simp only [applyFunction, hF]

/-- Witness of C12 in exact arithmetic: `abs(foo, 2)` returns `abs(0)` and no
error. -/
theorem C12_argument_error_dropped_witness :
    evalExpression Exact (call "abs" [ident ⟨.Identifier, "foo"⟩, num ⟨.NumberToken, "2"⟩])
      = .ret (Exact.Abs (0 : ℚ), none) :=
  (C12_argument_error_dropped Exact).1 "abs" Exact.Abs (ident ⟨.Identifier, "foo"⟩)
    [num ⟨.NumberToken, "2"⟩] "FuncExpression" (0 : ℚ) "Undefined variable foo" rfl rfl
    (by
      intro e he
      simp only [List.mem_singleton] at he
      subst he
      exact ⟨(2 : ℚ), none, evalExpression_num_Exact_two⟩)

/-- Counterexample to C12 as stated: the tokens of `"sin(foo, sin())"` parse
to a call of the registered function `sin` whose `args[0]` evaluates to an
error, and evaluating the call does not return `(sin(0), nil)`: it panics. -/
theorem C12_faulting_further_argument_counterexample :
    Tokenize "sin(foo, sin())" = .ret tokens_call_with_undefined_and_faulting_argument ∧
    Parse tokens_call_with_undefined_and_faulting_argument
      = .ret (⟨[call "sin" [ident ⟨.Identifier, "foo"⟩, call "sin" []]], "Program"⟩, none) ∧
    (mathFuncs Exact).lookup "sin" = some Exact.Sin ∧
    evalExpression Exact (ident ⟨.Identifier, "foo"⟩)
      = .ret ((0 : ℚ), some "Undefined variable foo") ∧
    evalExpression Exact (call "sin" [ident ⟨.Identifier, "foo"⟩, call "sin" []])
      = .panic indexOutOfRange :=
  ⟨by decide, rfl, rfl, rfl, rfl⟩

/-- C13: `Eval` evaluates only the first statement.  For every `Program` whose
statements are `s0 :: rest`, `Eval` is the evaluation of `s0`, whatever `rest`
contains.  The tokens of `"1 foo"` parse to the two statements `1` and `foo`;
the program evaluates to the value of the literal `1` with no error, and the
second statement alone evaluates to the error `Undefined variable foo`. -/
theorem C13_first_statement_only (M : Float64) :
    (∀ (s0 : Expression) (rest : List Expression) (Kind : String),
      Eval M ⟨s0 :: rest, Kind⟩ = evalExpression M s0) ∧
    Tokenize "1 foo" = .ret tokens_two_statements ∧
    Parse tokens_two_statements
      = .ret (⟨[num ⟨.NumberToken, "1"⟩, ident ⟨.Identifier, "foo"⟩], "Program"⟩, none) ∧
    (∀ x1 : M.F, M.ParseFloat "1" = .ok x1 →
      Eval M ⟨[num ⟨.NumberToken, "1"⟩, ident ⟨.Identifier, "foo"⟩], "Program"⟩
        = .ret (x1, none)) ∧
    Eval M ⟨[ident ⟨.Identifier, "foo"⟩], "Program"⟩
      = .ret (M.zero, some "Undefined variable foo") := by
  refine ⟨fun s0 rest Kind => ?_, by decide, rfl, ?_, rfl⟩
  · unfold Eval
    rw [evalExpression_program]
  · intro x1 h1
    unfold Eval
    rw [evalExpression_program]
    simp only [num, evalExpression, h1]

/-- Witness of C13 in exact arithmetic: the program of `"1 foo"` evaluates to
`1`. -/
theorem C13_first_statement_only_witness :
    Eval Exact ⟨[num ⟨.NumberToken, "1"⟩, ident ⟨.Identifier, "foo"⟩], "Program"⟩
      = .ret ((1 : ℚ), none) :=
  (C13_first_statement_only Exact).2.2.2.1 (1 : ℚ) parseDecimal_one

/-! ## Number tokens and token texts -/

theorem tokenizeLoop_nil (fuel : Nat) (tokens : List Token) :
    tokenizeLoop fuel [] tokens = .ret tokens := by
  cases fuel <;> rfl

/-- A digit is none of the bytes that the tokenizer tests before the digits. -/
theorem isDigit_not_operator {c : Char} (h : isDigit c = true) :
    c ≠ ' ' ∧ c ≠ ',' ∧ c ≠ '+' ∧ c ≠ '-' ∧ c ≠ '*' ∧ c ≠ '/' ∧ c ≠ '(' ∧ c ≠ ')' ∧
      c ≠ '\n' := by
  rw [isDigit_iff] at h
  simp only [Ne, Char.eq_iff_toNat_eq]
  refine ⟨?_, ?_, ?_, ?_, ?_, ?_, ?_, ?_, ?_⟩ <;> (simp; omega)

/-- A letter is none of the bytes that the tokenizer tests before the letters. -/
theorem isLetter_not_operator {c : Char} (h : isLetter c = true) :
    c ≠ ' ' ∧ c ≠ ',' ∧ c ≠ '+' ∧ c ≠ '-' ∧ c ≠ '*' ∧ c ≠ '/' ∧ c ≠ '(' ∧ c ≠ ')' ∧
      c ≠ '\n' ∧ isDigit c = false := by
  rw [isLetter_iff] at h
  have hd : isDigit c = false := by
    rw [Bool.eq_false_iff, Ne, isDigit_iff]
    omega
  simp only [Ne, Char.eq_iff_toNat_eq]
  refine ⟨?_, ?_, ?_, ?_, ?_, ?_, ?_, ?_, ?_, hd⟩ <;> (simp; omega)

/-- At a digit the loop of `Tokenize` appends one Number token, the run of
digits and `.` that starts there, and goes on after the run. -/
theorem tokenizeLoop_digit {c : Char} (h : isDigit c = true) (fuel : Nat) (rest : List Char)
    (tokens : List Token) :
    tokenizeLoop (fuel + 1) (c :: rest) tokens =
      tokenizeLoop fuel ((c :: rest).dropWhile isNumberChar)
        (tokens ++ [⟨.NumberToken, String.mk ((c :: rest).takeWhile isNumberChar)⟩]) := by
  obtain ⟨h1, h2, h3, h4, h5, h6, h7, h8, h9⟩ := isDigit_not_operator h
  rw [tokenizeLoop_cons, if_neg h1, if_neg h2, if_neg h3, if_neg h4, if_neg h5, if_neg h6,
    if_neg h7, if_neg h8, if_neg h9, if_pos h]

/-- At a letter the loop of `Tokenize` appends one Identifier token, the run of
letters that starts there, and goes on after the run. -/
theorem tokenizeLoop_letter {c : Char} (h : isLetter c = true) (fuel : Nat) (rest : List Char)
    (tokens : List Token) :
    tokenizeLoop (fuel + 1) (c :: rest) tokens =
      tokenizeLoop fuel ((c :: rest).dropWhile isLetter)
        (tokens ++ [⟨.Identifier, String.mk ((c :: rest).takeWhile isLetter)⟩]) := by
  obtain ⟨h1, h2, h3, h4, h5, h6, h7, h8, h9, h10⟩ := isLetter_not_operator h
  rw [tokenizeLoop_cons, if_neg h1, if_neg h2, if_neg h3, if_neg h4, if_neg h5, if_neg h6,
    if_neg h7, if_neg h8, if_neg h9, if_neg (by simp [h10]), if_pos h]

/-- C14: for every non-empty string made only of digits and `.` that begins
with a digit, `Tokenize` returns exactly one Number token whose text is the
string, however many `.` it has; in particular `Tokenize("1.2.3")` is the one
token Number `1.2.3`. -/
theorem C14_number_token_verbatim :
    (∀ s : String, (∀ c ∈ s.data, isNumberChar c = true) →
      (∃ c, s.data.head? = some c ∧ isDigit c = true) →
      Tokenize s = .ret [⟨.NumberToken, s⟩]) ∧
    Tokenize "1.2.3" = .ret [⟨.NumberToken, "1.2.3"⟩] := by
  refine ⟨?_, by decide⟩
  intro s hall hhead
  obtain ⟨c, hc, hdigit⟩ := hhead
  unfold Tokenize
  cases hdata : s.data with
  | nil => rw [hdata] at hc; simp at hc
  | cons d rest =>
    rw [hdata] at hc hall
    have hd : d = c := by simpa using hc
    subst hd
    rw [List.length_cons, tokenizeLoop_digit hdigit, List.takeWhile_eq_self_iff.mpr hall,
      List.dropWhile_eq_nil_iff.mpr hall, tokenizeLoop_nil, ← hdata]
    rfl

/-- Witness of C14 on the string `"12..5"`. -/
theorem C14_number_token_verbatim_witness :
    Tokenize "12..5" = .ret [⟨.NumberToken, "12..5"⟩] :=
  C14_number_token_verbatim.1 "12..5" (by decide) ⟨'1', rfl, by decide⟩

theorem valueChars_append_singleton (tokens : List Token) (tok : Token) :
    valueChars (tokens ++ [tok]) = valueChars tokens ++ tok.Value.data := by
  simp [valueChars]

theorem visible_of_isNumberChar {c : Char} (h : isNumberChar c = true) : visible c = true := by
  rw [isNumberChar_iff] at h
  have h1 : c ≠ ' ' := by rw [Ne, Char.eq_iff_toNat_eq]; simp; omega
  have h2 : c ≠ '\n' := by rw [Ne, Char.eq_iff_toNat_eq]; simp; omega
  simp [visible, h1, h2]

theorem visible_of_isLetter {c : Char} (h : isLetter c = true) : visible c = true := by
  obtain ⟨h1, _, _, _, _, _, _, _, h9, _⟩ := isLetter_not_operator h
  simp [visible, h1, h9]

/-- A run taken by `takeWhile`, followed by the visible bytes after the run,
is the visible bytes of the whole, when the run has only visible bytes. -/
theorem takeWhile_append_filter_dropWhile (f : Char → Bool)
    (hf : ∀ c, f c = true → visible c = true) (l : List Char) :
    l.takeWhile f ++ (l.dropWhile f).filter visible = l.filter visible := by
  have hrun : (l.takeWhile f).filter visible = l.takeWhile f :=
    List.filter_eq_self.mpr (fun c hc => hf c (List.mem_takeWhile_imp hc))
  rw [← hrun, ← List.filter_append, List.takeWhile_append_dropWhile]

/-- The token texts that the loop of `Tokenize` returns are the texts it
started with followed by the visible bytes of the remaining input. -/
theorem tokenizeLoop_values (fuel : Nat) :
    ∀ (l : List Char) (tokens result : List Token), tokenizeLoop fuel l tokens = .ret result →
      valueChars result = valueChars tokens ++ l.filter visible := by
  induction fuel with
  | zero =>
    intro l tokens result h
    cases l with
    | nil =>
      rw [tokenizeLoop_nil] at h
      cases h
      simp
    | cons c rest => cases h
  | succ fuel ih =>
    intro l tokens result h
    cases l with
    | nil =>
      rw [tokenizeLoop_nil] at h
      cases h
      simp
    | cons c rest =>
      have single : ∀ (tok : Token), tok.Value.data = [c] → visible c = true →
          tokenizeLoop fuel rest (tokens ++ [tok]) = .ret result →
          valueChars result = valueChars tokens ++ (c :: rest).filter visible := by
        intro tok htok hvis h'
        rw [ih rest _ result h', valueChars_append_singleton, htok, List.filter_cons_of_pos hvis,
          List.append_assoc]
        rfl
      have skip : visible c = false → tokenizeLoop fuel rest tokens = .ret result →
          valueChars result = valueChars tokens ++ (c :: rest).filter visible := by
        intro hvis h'
        rw [ih rest _ result h', List.filter_cons_of_neg (by simp [hvis])]
      rw [tokenizeLoop_cons] at h
      by_cases h1 : c = ' '
      · rw [if_pos h1] at h; exact skip (by subst h1; decide) h
      rw [if_neg h1] at h
      by_cases h2 : c = ','
      · rw [if_pos h2] at h; exact single _ (by subst h2; rfl) (by subst h2; decide) h
      rw [if_neg h2] at h
      by_cases h3 : c = '+'
      · rw [if_pos h3] at h; exact single _ (by subst h3; rfl) (by subst h3; decide) h
      rw [if_neg h3] at h
      by_cases h4 : c = '-'
      · rw [if_pos h4] at h; exact single _ (by subst h4; rfl) (by subst h4; decide) h
      rw [if_neg h4] at h
      by_cases h5 : c = '*'
      · rw [if_pos h5] at h
        by_cases h6 : rest.head? = some '*'
        · rw [if_pos h6] at h
          cases rest with
          | nil => simp at h6
          | cons d rest2 =>
            have hd : d = '*' := by simpa using h6
            subst h5
            subst hd
            rw [ih _ _ result h, valueChars_append_singleton, List.append_assoc]
            rfl
        · rw [if_neg h6] at h; exact single _ (by subst h5; rfl) (by subst h5; decide) h
      rw [if_neg h5] at h
      by_cases h7 : c = '/'
      · rw [if_pos h7] at h; exact single _ (by subst h7; rfl) (by subst h7; decide) h
      rw [if_neg h7] at h
      by_cases h8 : c = '('
      · rw [if_pos h8] at h; exact single _ (by subst h8; rfl) (by subst h8; decide) h
      rw [if_neg h8] at h
      by_cases h9 : c = ')'
      · rw [if_pos h9] at h; exact single _ (by subst h9; rfl) (by subst h9; decide) h
      rw [if_neg h9] at h
      by_cases h10 : c = '\n'
      · rw [if_pos h10] at h; exact skip (by subst h10; decide) h
      rw [if_neg h10] at h
      by_cases h11 : isDigit c = true
      · rw [if_pos h11] at h
        rw [ih _ _ result h, valueChars_append_singleton, List.append_assoc]
        exact congrArg (valueChars tokens ++ ·)
          (takeWhile_append_filter_dropWhile isNumberChar
            (fun _ hc => visible_of_isNumberChar hc) (c :: rest))
      rw [if_neg h11] at h
      by_cases h12 : isLetter c = true
      · rw [if_pos h12] at h
        rw [ih _ _ result h, valueChars_append_singleton, List.append_assoc]
        exact congrArg (valueChars tokens ++ ·)
          (takeWhile_append_filter_dropWhile isLetter
            (fun _ hc => visible_of_isLetter hc) (c :: rest))
      rw [if_neg h12] at h
      cases h

/-- C15: token texts retain the original substrings.  For every input on which
`Tokenize` returns tokens, the concatenation of their `Value` fields, in
order, is the input with every space and newline removed. -/
theorem C15_token_texts_concatenate (input : String) (tokens : List Token)
    (h : Tokenize input = .ret tokens) :
    String.join (tokens.map Token.Value) = String.mk (input.data.filter visible) ∧
    valueChars tokens = input.data.filter visible := by
  have hv : valueChars tokens = input.data.filter visible := by
    have := tokenizeLoop_values _ _ _ _ h
    simpa [valueChars] using this
  refine ⟨?_, hv⟩
  apply String.ext
  rw [String.data_join, List.map_map]
  exact hv

/-- Witness of C15 on the input `"2 ** (pi+1.5)\n"`. -/
theorem C15_token_texts_concatenate_witness :
    String.join
        ([⟨.NumberToken, "2"⟩, ⟨.PowerToken, "**"⟩, ⟨.LeftParenthesisToken, "("⟩,
          ⟨.Identifier, "pi"⟩, ⟨.PlusToken, "+"⟩, ⟨.NumberToken, "1.5"⟩,
          ⟨.RightParenthesisToken, ")"⟩].map Token.Value)
      = String.mk ("2 ** (pi+1.5)\n".data.filter visible) :=
  (C15_token_texts_concatenate "2 ** (pi+1.5)\n" _ (by decide)).1

/-! ## Parse errors and argument lists -/

/-- At a token that starts no primary expression `parsePrimary` returns the
error that names its kind. -/
theorem parsePrimary_unexpected {fuel : Nat} {p : Parser} {t : Token} (hf : 1 ≤ fuel)
    (hget : p.Get [] = some t) (h1 : t.Typ ≠ .NumberToken) (h2 : t.Typ ≠ .Identifier)
    (h3 : t.Typ ≠ .LeftParenthesisToken) :
    parsePrimary fuel p = .error ("unexpected token: " ++ t.Typ.String) := by
  obtain ⟨f, rfl⟩ : ∃ f, fuel = f + 1 := ⟨fuel - 1, by omega⟩
  rw [parsePrimary_succ, hget]
  cases hT : t.Typ <;> simp_all

/-- An error of `parsePrimary` on the first token is the error of `Parse`,
returned with the empty `Program{}`. -/
theorem Parse_error_of_parsePrimary {t : Token} {rest : List Token} {msg : String}
    (h : ∀ fuel, 1 ≤ fuel → parsePrimary fuel (NewParser (t :: rest)) = .error msg) :
    Parse (t :: rest) = .ret (⟨[], ""⟩, some msg) := by
  obtain ⟨f, hf⟩ : ∃ f, parseFuel (t :: rest) = f + 6 :=
    ⟨6 * rest.length + 7, by simp [parseFuel]; omega⟩
  unfold Parse
  rw [hf, parseLoop_succ, if_pos (by simp [NewParser])]
  unfold parseStatement
  rw [parseExpression_succ, parseAddition_succ, parseMultiplication_succ, parsePower_succ,
    h (f + 1) (by omega)]

/-- C16: an unexpected leading token or end of input is a parse error with no
partial result.  For every non-empty token slice whose first token has a kind
`K` other than Number, Identifier and LeftParen, `Parse` returns the error
`unexpected token: K`, with `K` as `TokenType.String` renders it, and the
`Program` without statements; for every slice of a Number token followed by
one Plus, Minus, Multiply, Divide or Power token, `Parse` returns the error
`unexpected end of input` and the `Program` without statements. -/
theorem C16_unexpected_token_or_end :
    (∀ (t : Token) (rest : List Token), t.Typ ≠ .NumberToken → t.Typ ≠ .Identifier →
      t.Typ ≠ .LeftParenthesisToken →
      Parse (t :: rest) = .ret (⟨[], ""⟩, some ("unexpected token: " ++ t.Typ.String))) ∧
    (∀ (x op : Token), x.Typ = .NumberToken →
      (op.Typ = .PlusToken ∨ op.Typ = .MinusToken ∨ op.Typ = .MultiplyToken ∨
        op.Typ = .DivideToken ∨ op.Typ = .PowerToken) →
      Parse [x, op] = .ret (⟨[], ""⟩, some "unexpected end of input")) := by
  constructor
  · intro t rest h1 h2 h3
    apply Parse_error_of_parsePrimary
    intro fuel hf
    exact parsePrimary_unexpected hf (by rw [Parser.Get_current]; rfl) h1 h2 h3
  · intro x op hx hop
    obtain ⟨kx, vx⟩ := x
    obtain ⟨ko, vo⟩ := op
    simp only at hx hop
    subst hx
    rcases hop with h | h | h | h | h <;> subst h <;> rfl

/-- Witness of C16: the tokens of `"-1"`, with a leading Minus, and the tokens
of `"1+"`. -/
theorem C16_unexpected_token_or_end_witness :
    Parse [⟨.MinusToken, "-"⟩, ⟨.NumberToken, "1"⟩]
      = .ret (⟨[], ""⟩, some ("unexpected token: " ++ TokenType.MinusToken.String)) ∧
    Parse [⟨.NumberToken, "1"⟩, ⟨.PlusToken, "+"⟩]
      = .ret (⟨[], ""⟩, some "unexpected end of input") :=
  ⟨C16_unexpected_token_or_end.1 ⟨.MinusToken, "-"⟩ [⟨.NumberToken, "1"⟩]
      (by decide) (by decide) (by decide),
   C16_unexpected_token_or_end.2 ⟨.NumberToken, "1"⟩ ⟨.PlusToken, "+"⟩ rfl (Or.inl rfl)⟩

/-- C17: commas between function arguments are optional and a trailing comma
is accepted.  For every Identifier token `f` and all Number tokens `a b`, the
token slices `f ( a , b )`, `f ( a b )` and `f ( a , b , )` all parse to the
same single statement, the call named by the text of `f` with the arguments
`a` and `b`; the doubled comma of `f ( a , , b )` makes `Parse` return the
error `unexpected token: Comma`. -/
theorem C17_commas_between_arguments (vf va vb vl vr vc vd : String) :
    Parse [⟨.Identifier, vf⟩, ⟨.LeftParenthesisToken, vl⟩, ⟨.NumberToken, va⟩, ⟨.Comma, vc⟩,
        ⟨.NumberToken, vb⟩, ⟨.RightParenthesisToken, vr⟩]
      = .ret (⟨[call vf [num ⟨.NumberToken, va⟩, num ⟨.NumberToken, vb⟩]], "Program"⟩, none) ∧
    Parse [⟨.Identifier, vf⟩, ⟨.LeftParenthesisToken, vl⟩, ⟨.NumberToken, va⟩,
        ⟨.NumberToken, vb⟩, ⟨.RightParenthesisToken, vr⟩]
      = .ret (⟨[call vf [num ⟨.NumberToken, va⟩, num ⟨.NumberToken, vb⟩]], "Program"⟩, none) ∧
    Parse [⟨.Identifier, vf⟩, ⟨.LeftParenthesisToken, vl⟩, ⟨.NumberToken, va⟩, ⟨.Comma, vc⟩,
        ⟨.NumberToken, vb⟩, ⟨.Comma, vd⟩, ⟨.RightParenthesisToken, vr⟩]
      = .ret (⟨[call vf [num ⟨.NumberToken, va⟩, num ⟨.NumberToken, vb⟩]], "Program"⟩, none) ∧
    Parse [⟨.Identifier, vf⟩, ⟨.LeftParenthesisToken, vl⟩, ⟨.NumberToken, va⟩, ⟨.Comma, vc⟩,
        ⟨.Comma, vd⟩, ⟨.NumberToken, vb⟩, ⟨.RightParenthesisToken, vr⟩]
      = .ret (⟨[], ""⟩, some "unexpected token: Comma") :=
  ⟨rfl, rfl, rfl, rfl⟩

/-! ## Progress of the parser -/

theorem parseGroup_succ (fuel : Nat) (p : Parser) :
    parseGroup (fuel + 1) p =
    match parseExpression fuel p.advance with
    | .ok expr p =>
      match p.Get [] with
      | none => .panic nilDereference
      | some token =>
        if token.Typ ≠ .RightParenthesisToken then
          .error ("expected RightParenthesis but got " ++ token.Typ.String)
        else .ok expr p.advance
    | r => r := by
  rw [parseGroup]

theorem parseFunction_succ (fuel : Nat) (p : Parser) :
    parseFunction (fuel + 1) p =
    match p.Get [] with
    | none => .panic nilDereference
    | some nameToken =>
      match p.advance.Get [] with
      | none => .panic nilDereference
      | some token =>
        if token.Typ ≠ .LeftParenthesisToken then
          .error ("expected LeftParenthesis but got " ++ token.Typ.String)
        else
          match p.advance.advance.Get [] with
          | none => .panic nilDereference
          | some token =>
            if token.Typ = .RightParenthesisToken then
              .ok (.FuncExpression nameToken.Value [] "FuncExpression") p.advance.advance.advance
            else parseFunctionLoop fuel nameToken.Value [] p.advance.advance := by
  rw [parseFunction]

theorem parseFunctionLoop_succ (fuel : Nat) (name : String) (args : List Expression)
    (p : Parser) :
    parseFunctionLoop (fuel + 1) name args p =
    match p.Get [] with
    | none => parseFunctionClose name args p
    | some token =>
      if token.Typ = .RightParenthesisToken then parseFunctionClose name args p
      else
        match parseExpression fuel p with
        | .ok arg p =>
          if (p.Get []).any (fun t => t.Typ == .Comma) then
            parseFunctionLoop fuel name (args ++ [arg]) p.advance
          else parseFunctionLoop fuel name (args ++ [arg]) p
        | r => r := by
  rw [parseFunctionLoop]

theorem Parser.Get_some_lt {p : Parser} {t : Token} (h : p.Get [] = some t) :
    p.current < p.tokens.length := by
  unfold Parser.Get at h
  simp only [] at h
  by_contra hge
  rw [if_pos (by omega)] at h
  cases h

theorem Advances.of_get {p : Parser} {t : Token} (h : p.Get [] = some t) :
    Advances p p.advance := by
  have := Parser.Get_some_lt h
  exact ⟨rfl, Nat.lt_succ_self _, this⟩

theorem Continues.refl (p : Parser) : Continues p p := ⟨rfl, Nat.le_refl _, fun h => h⟩

theorem Advances.then_continues {p q r : Parser} (h1 : Advances p q) (h2 : Continues q r) :
    Advances p r := by
  obtain ⟨a1, a2, a3⟩ := h1
  obtain ⟨b1, b2, b3⟩ := h2
  exact ⟨b1.trans a1, Nat.lt_of_lt_of_le a2 b2, b3 a3⟩

theorem Advances.after_advance {p q : Parser} (h : Advances p.advance q) : Advances p q := by
  obtain ⟨a1, a2, a3⟩ := h
  exact ⟨a1, Nat.lt_trans (Nat.lt_succ_self _) a2, a3⟩

theorem Advances.then_get {p q : Parser} {t : Token} (h : Advances p q)
    (hget : q.Get [] = some t) : Advances p q.advance := by
  obtain ⟨a1, a2, a3⟩ := h
  exact ⟨a1, Nat.lt_succ_of_lt a2, Parser.Get_some_lt hget⟩

theorem Advances.to_continues {p q : Parser} (h : Advances p q) : Continues p q :=
  ⟨h.1, Nat.le_of_lt h.2.1, fun _ => h.2.2⟩

theorem Advances.trans {p q r : Parser} (h1 : Advances p q) (h2 : Advances q r) :
    Advances p r :=
  h1.then_continues h2.to_continues

theorem parseNumber_advances {p : Parser} {e : Expression} {q : Parser}
    (h : parseNumber p = .ok e q) : Advances p q := by
  unfold parseNumber at h
  cases hg : p.Get [] with
  | none => simp [hg] at h
  | some t =>
    simp only [hg, Parsed.ok.injEq] at h
    rw [← h.2]
    exact Advances.of_get hg

theorem parseIdentifier_advances {p : Parser} {e : Expression} {q : Parser}
    (h : parseIdentifier p = .ok e q) : Advances p q := by
  unfold parseIdentifier at h
  cases hg : p.Get [] with
  | none => simp [hg] at h
  | some t =>
    simp only [hg, Parsed.ok.injEq] at h
    rw [← h.2]
    exact Advances.of_get hg

theorem parseFunctionClose_advances {name : String} {args : List Expression} {p : Parser}
    {e : Expression} {q : Parser} (h : parseFunctionClose name args p = .ok e q) :
    Advances p q := by
  unfold parseFunctionClose at h
  cases hg : p.Get [] with
  | none => simp [hg] at h
  | some t =>
    simp only [hg] at h
    split at h
    · cases h
    · simp only [Parsed.ok.injEq] at h
      rw [← h.2]
      exact Advances.of_get hg

/-- Every parse method that returns an expression has moved the cursor forward
and kept it within the token slice; the loops do not move it back. -/
theorem parse_progress (n : Nat) :
    (∀ p e q, parseExpression n p = .ok e q → Advances p q) ∧
    (∀ p e q, parseAddition n p = .ok e q → Advances p q) ∧
    (∀ left p e q, parseAdditionLoop n left p = .ok e q → Continues p q) ∧
    (∀ p e q, parseMultiplication n p = .ok e q → Advances p q) ∧
    (∀ left p e q, parseMultiplicationLoop n left p = .ok e q → Continues p q) ∧
    (∀ p e q, parsePower n p = .ok e q → Advances p q) ∧
    (∀ left p e q, parsePowerLoop n left p = .ok e q → Continues p q) ∧
    (∀ p e q, parsePrimary n p = .ok e q → Advances p q) ∧
    (∀ p e q, parseGroup n p = .ok e q → Advances p q) ∧
    (∀ p e q, parseFunction n p = .ok e q → Advances p q) ∧
    (∀ name args p e q, parseFunctionLoop n name args p = .ok e q → Advances p q) := by
  induction n with
  | zero =>
    refine ⟨?_, ?_, ?_, ?_, ?_, ?_, ?_, ?_, ?_, ?_, ?_⟩
    · intro p e q h; rw [parseExpression] at h; cases h
    · intro p e q h; rw [parseAddition] at h; cases h
    · intro left p e q h; rw [parseAdditionLoop] at h; cases h
    · intro p e q h; rw [parseMultiplication] at h; cases h
    · intro left p e q h; rw [parseMultiplicationLoop] at h; cases h
    · intro p e q h; rw [parsePower] at h; cases h
    · intro left p e q h; rw [parsePowerLoop] at h; cases h
    · intro p e q h; rw [parsePrimary] at h; cases h
    · intro p e q h; rw [parseGroup] at h; cases h
    · intro p e q h; rw [parseFunction] at h; cases h
    · intro name args p e q h; rw [parseFunctionLoop] at h; cases h
  | succ n ih =>
    obtain ⟨ihE, ihA, ihAL, ihM, ihML, ihP, ihPL, ihPr, ihG, ihF, ihFL⟩ := ih
    refine ⟨?_, ?_, ?_, ?_, ?_, ?_, ?_, ?_, ?_, ?_, ?_⟩
    · intro p e q h
      rw [parseExpression_succ] at h
      exact ihA p e q h
    · intro p e q h
      rw [parseAddition_succ] at h
      cases hm : parseMultiplication n p with
      | ok left p1 =>
        simp only [hm] at h
        exact (ihM p left p1 hm).then_continues (ihAL left p1 e q h)
      | error msg => simp only [hm] at h; cases h
      | panic msg => simp only [hm] at h; cases h
      | fuel => simp only [hm] at h; cases h
    · intro left p e q h
      rw [parseAdditionLoop_succ] at h
      cases hg : p.Get [] with
      | none =>
        simp only [hg, Parsed.ok.injEq] at h
        rw [← h.2]
        exact Continues.refl p
      | some token =>
        by_cases hc : token.Typ ≠ .PlusToken ∧ token.Typ ≠ .MinusToken
        · simp only [hg, if_pos hc, Parsed.ok.injEq] at h
          rw [← h.2]
          exact Continues.refl p
        · cases hm : parseMultiplication n p.advance with
          | ok right p1 =>
            simp only [hg, if_neg hc, hm] at h
            exact ((ihM _ _ _ hm).after_advance.then_continues
              (ihAL _ p1 e q h)).to_continues
          | error msg => simp only [hg, if_neg hc, hm] at h; cases h
          | panic msg => simp only [hg, if_neg hc, hm] at h; cases h
          | fuel => simp only [hg, if_neg hc, hm] at h; cases h
    · intro p e q h
      rw [parseMultiplication_succ] at h
      cases hm : parsePower n p with
      | ok left p1 =>
        simp only [hm] at h
        exact (ihP p left p1 hm).then_continues (ihML left p1 e q h)
      | error msg => simp only [hm] at h; cases h
      | panic msg => simp only [hm] at h; cases h
      | fuel => simp only [hm] at h; cases h
    · intro left p e q h
      rw [parseMultiplicationLoop_succ] at h
      cases hg : p.Get [] with
      | none =>
        simp only [hg, Parsed.ok.injEq] at h
        rw [← h.2]
        exact Continues.refl p
      | some token =>
        by_cases hc : token.Typ ≠ .MultiplyToken ∧ token.Typ ≠ .DivideToken
        · simp only [hg, if_pos hc, Parsed.ok.injEq] at h
          rw [← h.2]
          exact Continues.refl p
        · cases hm : parsePower n p.advance with
          | ok right p1 =>
            simp only [hg, if_neg hc, hm] at h
            exact ((ihP _ _ _ hm).after_advance.then_continues
              (ihML _ p1 e q h)).to_continues
          | error msg => simp only [hg, if_neg hc, hm] at h; cases h
          | panic msg => simp only [hg, if_neg hc, hm] at h; cases h
          | fuel => simp only [hg, if_neg hc, hm] at h; cases h
    · intro p e q h
      rw [parsePower_succ] at h
      cases hm : parsePrimary n p with
      | ok left p1 =>
        simp only [hm] at h
        exact (ihPr p left p1 hm).then_continues (ihPL left p1 e q h)
      | error msg => simp only [hm] at h; cases h
      | panic msg => simp only [hm] at h; cases h
      | fuel => simp only [hm] at h; cases h
    · intro left p e q h
      rw [parsePowerLoop_succ] at h
      cases hg : p.Get [] with
      | none =>
        simp only [hg, Parsed.ok.injEq] at h
        rw [← h.2]
        exact Continues.refl p
      | some token =>
        by_cases hc : token.Typ ≠ .PowerToken ∧ token.Typ ≠ .DivideToken
        · simp only [hg, if_pos hc, Parsed.ok.injEq] at h
          rw [← h.2]
          exact Continues.refl p
        · cases hm : parsePrimary n p.advance with
          | ok right p1 =>
            simp only [hg, if_neg hc, hm] at h
            exact ((ihPr _ _ _ hm).after_advance.then_continues
              (ihPL _ p1 e q h)).to_continues
          | error msg => simp only [hg, if_neg hc, hm] at h; cases h
          | panic msg => simp only [hg, if_neg hc, hm] at h; cases h
          | fuel => simp only [hg, if_neg hc, hm] at h; cases h
    · intro p e q h
      rw [parsePrimary_succ] at h
      cases hg : p.Get [] with
      | none => simp only [hg] at h; cases h
      | some token =>
        simp only [hg] at h
        split at h
        · exact parseNumber_advances h
        · split at h
          · exact parseIdentifier_advances h
          · split at h
            · exact ihF p e q h
            · cases h
        · exact ihG p e q h
        · cases h
    · intro p e q h
      rw [parseGroup_succ] at h
      cases he : parseExpression n p.advance with
      | ok expr p1 =>
        cases hg : p1.Get [] with
        | none => simp only [he, hg] at h; cases h
        | some token =>
          simp only [he, hg] at h
          split at h
          · cases h
          · simp only [Parsed.ok.injEq] at h
            rw [← h.2]
            exact ((ihE _ _ _ he).after_advance).then_get hg
      | error msg => simp only [he] at h; cases h
      | panic msg => simp only [he] at h; cases h
      | fuel => simp only [he] at h; cases h
    · intro p e q h
      rw [parseFunction_succ] at h
      cases hg0 : p.Get [] with
      | none => simp only [hg0] at h; cases h
      | some nameToken =>
        cases hg1 : p.advance.Get [] with
        | none => simp only [hg0, hg1] at h; cases h
        | some t1 =>
          simp only [hg0, hg1] at h
          split at h
          · cases h
          · cases hg2 : p.advance.advance.Get [] with
            | none => simp only [hg2] at h; cases h
            | some t2 =>
              have hadv : Advances p p.advance.advance :=
                (Advances.of_get hg0).trans (Advances.of_get hg1)
              simp only [hg2] at h
              split at h
              · simp only [Parsed.ok.injEq] at h
                rw [← h.2]
                exact hadv.then_get hg2
              · exact hadv.trans (ihFL _ _ _ e q h)
    · intro name args p e q h
      rw [parseFunctionLoop_succ] at h
      cases hg : p.Get [] with
      | none =>
        simp only [hg] at h
        exact parseFunctionClose_advances h
      | some token =>
        simp only [hg] at h
        split at h
        · exact parseFunctionClose_advances h
        · cases he : parseExpression n p with
          | ok arg p1 =>
            simp only [he] at h
            split at h
            · rename_i hcomma
              cases hg1 : p1.Get [] with
              | none => simp [hg1] at hcomma
              | some t1 =>
                exact ((ihE _ _ _ he).trans (Advances.of_get hg1)).trans (ihFL _ _ _ e q h)
            · exact (ihE _ _ _ he).trans (ihFL _ _ _ e q h)
          | error msg => simp only [he] at h; cases h
          | panic msg => simp only [he] at h; cases h
          | fuel => simp only [he] at h; cases h

/-! ## The step budget of the parser -/

theorem Parser.left_advance (p : Parser) : p.advance.left = p.left - 1 := by
  unfold Parser.left Parser.advance
  simp only []
  omega

theorem Parser.left_pos_of_get {p : Parser} {t : Token} (h : p.Get [] = some t) :
    1 ≤ p.left := by
  have := Parser.Get_some_lt h
  unfold Parser.left
  omega

theorem Advances.left_lt {p q : Parser} (h : Advances p q) : q.left < p.left := by
  obtain ⟨h1, h2, h3⟩ := h
  unfold Parser.left
  rw [h1] at h3 ⊢
  omega

theorem parseNumber_ne_fuel (p : Parser) : parseNumber p ≠ .fuel := by
  unfold parseNumber
  cases p.Get [] <;> simp

theorem parseIdentifier_ne_fuel (p : Parser) : parseIdentifier p ≠ .fuel := by
  unfold parseIdentifier
  cases p.Get [] <;> simp

theorem parseFunctionClose_ne_fuel (name : String) (args : List Expression) (p : Parser) :
    parseFunctionClose name args p ≠ .fuel := by
  unfold parseFunctionClose
  cases p.Get [] with
  | none => simp
  | some t =>
    simp only []
    split <;> simp

/-- Six steps for every remaining token, and a few more, are enough for every
parse method: the step budget does not run out. -/
theorem parse_fuel (n : Nat) :
    (∀ p : Parser, 6 * p.left + 6 ≤ n → parseExpression n p ≠ .fuel) ∧
    (∀ p : Parser, 6 * p.left + 5 ≤ n → parseAddition n p ≠ .fuel) ∧
    (∀ (left : Expression) (p : Parser), 6 * p.left + 1 ≤ n →
      parseAdditionLoop n left p ≠ .fuel) ∧
    (∀ p : Parser, 6 * p.left + 4 ≤ n → parseMultiplication n p ≠ .fuel) ∧
    (∀ (left : Expression) (p : Parser), 6 * p.left + 1 ≤ n →
      parseMultiplicationLoop n left p ≠ .fuel) ∧
    (∀ p : Parser, 6 * p.left + 3 ≤ n → parsePower n p ≠ .fuel) ∧
    (∀ (left : Expression) (p : Parser), 6 * p.left + 1 ≤ n →
      parsePowerLoop n left p ≠ .fuel) ∧
    (∀ p : Parser, 6 * p.left + 2 ≤ n → parsePrimary n p ≠ .fuel) ∧
    (∀ p : Parser, 1 ≤ p.left → 6 * p.left + 1 ≤ n → parseGroup n p ≠ .fuel) ∧
    (∀ p : Parser, 6 * p.left + 1 ≤ n → parseFunction n p ≠ .fuel) ∧
    (∀ (name : String) (args : List Expression) (p : Parser), 6 * p.left + 7 ≤ n →
      parseFunctionLoop n name args p ≠ .fuel) := by
  induction n with
  | zero =>
    refine ⟨?_, ?_, ?_, ?_, ?_, ?_, ?_, ?_, ?_, ?_, ?_⟩ <;> intros <;> omega
  | succ n ih =>
    obtain ⟨ihE, ihA, ihAL, ihM, ihML, ihP, ihPL, ihPr, ihG, ihF, ihFL⟩ := ih
    refine ⟨?_, ?_, ?_, ?_, ?_, ?_, ?_, ?_, ?_, ?_, ?_⟩
    · intro p hb
      rw [parseExpression_succ]
      exact ihA p (by omega)
    · intro p hb
      rw [parseAddition_succ]
      cases hm : parseMultiplication n p with
      | ok left p1 =>
        have hlt := ((parse_progress n).2.2.2.1 p left p1 hm).left_lt
        exact ihAL left p1 (by omega)
      | error msg => simp
      | panic msg => simp
      | fuel => exact absurd hm (ihM p (by omega))
    · intro left p hb
      rw [parseAdditionLoop_succ]
      cases hg : p.Get [] with
      | none => simp
      | some token =>
        by_cases hc : token.Typ ≠ .PlusToken ∧ token.Typ ≠ .MinusToken
        · simp only [if_pos hc]
          simp
        · have hpos := Parser.left_pos_of_get hg
          have hadv := Parser.left_advance p
          cases hm : parseMultiplication n p.advance with
          | ok right p1 =>
            have hlt := ((parse_progress n).2.2.2.1 p.advance right p1 hm).left_lt
            simp only [if_neg hc]
            exact ihAL _ p1 (by omega)
          | error msg => simp only [if_neg hc]; simp
          | panic msg => simp only [if_neg hc]; simp
          | fuel => exact absurd hm (ihM p.advance (by omega))
    · intro p hb
      rw [parseMultiplication_succ]
      cases hm : parsePower n p with
      | ok left p1 =>
        have hlt := ((parse_progress n).2.2.2.2.2.1 p left p1 hm).left_lt
        exact ihML left p1 (by omega)
      | error msg => simp
      | panic msg => simp
      | fuel => exact absurd hm (ihP p (by omega))
    · intro left p hb
      rw [parseMultiplicationLoop_succ]
      cases hg : p.Get [] with
      | none => simp
      | some token =>
        by_cases hc : token.Typ ≠ .MultiplyToken ∧ token.Typ ≠ .DivideToken
        · simp only [if_pos hc]
          simp
        · have hpos := Parser.left_pos_of_get hg
          have hadv := Parser.left_advance p
          cases hm : parsePower n p.advance with
          | ok right p1 =>
            have hlt := ((parse_progress n).2.2.2.2.2.1 p.advance right p1 hm).left_lt
            simp only [if_neg hc]
            exact ihML _ p1 (by omega)
          | error msg => simp only [if_neg hc]; simp
          | panic msg => simp only [if_neg hc]; simp
          | fuel => exact absurd hm (ihP p.advance (by omega))
    · intro p hb
      rw [parsePower_succ]
      cases hm : parsePrimary n p with
      | ok left p1 =>
        have hlt := ((parse_progress n).2.2.2.2.2.2.2.1 p left p1 hm).left_lt
        exact ihPL left p1 (by omega)
      | error msg => simp
      | panic msg => simp
      | fuel => exact absurd hm (ihPr p (by omega))
    · intro left p hb
      rw [parsePowerLoop_succ]
      cases hg : p.Get [] with
      | none => simp
      | some token =>
        by_cases hc : token.Typ ≠ .PowerToken ∧ token.Typ ≠ .DivideToken
        · simp only [if_pos hc]
          simp
        · have hpos := Parser.left_pos_of_get hg
          have hadv := Parser.left_advance p
          cases hm : parsePrimary n p.advance with
          | ok right p1 =>
            have hlt := ((parse_progress n).2.2.2.2.2.2.2.1 p.advance right p1 hm).left_lt
            simp only [if_neg hc]
            exact ihPL _ p1 (by omega)
          | error msg => simp only [if_neg hc]; simp
          | panic msg => simp only [if_neg hc]; simp
          | fuel => exact absurd hm (ihPr p.advance (by omega))
    · intro p hb
      rw [parsePrimary_succ]
      cases hg : p.Get [] with
      | none => simp
      | some token =>
        have hpos := Parser.left_pos_of_get hg
        simp only []
        split
        · exact parseNumber_ne_fuel p
        · split
          · exact parseIdentifier_ne_fuel p
          · split
            · exact ihF p (by omega)
            · simp
        · exact ihG p hpos (by omega)
        · simp
    · intro p hpos hb
      rw [parseGroup_succ]
      have hadv := Parser.left_advance p
      cases he : parseExpression n p.advance with
      | ok expr p1 =>
        simp only []
        cases hg : p1.Get [] with
        | none => simp
        | some token =>
          simp only []
          split <;> simp
      | error msg => simp
      | panic msg => simp
      | fuel => exact absurd he (ihE p.advance (by omega))
    · intro p hb
      rw [parseFunction_succ]
      cases hg0 : p.Get [] with
      | none => simp
      | some nameToken =>
        cases hg1 : p.advance.Get [] with
        | none => simp
        | some t1 =>
          simp only []
          split
          · simp
          · cases hg2 : p.advance.advance.Get [] with
            | none => simp
            | some t2 =>
              simp only []
              split
              · simp
              · have h1 := Parser.left_advance p
                have h2 := Parser.left_advance p.advance
                have h3 := Parser.left_pos_of_get hg2
                exact ihFL _ _ _ (by omega)
    · intro name args p hb
      rw [parseFunctionLoop_succ]
      cases hg : p.Get [] with
      | none => exact parseFunctionClose_ne_fuel name args p
      | some token =>
        simp only []
        split
        · exact parseFunctionClose_ne_fuel name args p
        · cases he : parseExpression n p with
          | ok arg p1 =>
            have hlt := ((parse_progress n).1 p arg p1 he).left_lt
            have hadv := Parser.left_advance p1
            simp only []
            split
            · exact ihFL _ _ _ (by omega)
            · exact ihFL _ _ _ (by omega)
          | error msg => simp
          | panic msg => simp
          | fuel => exact absurd he (ihE p (by omega))

theorem parseFunctionClose_ok {name : String} {args : List Expression} {p : Parser}
    {e : Expression} {q : Parser} (h : parseFunctionClose name args p = .ok e q) :
    e = .FuncExpression name args "FuncExpression" ∧ q = p.advance := by
  unfold parseFunctionClose at h
  cases hg : p.Get [] with
  | none => simp [hg] at h
  | some t =>
    simp only [hg] at h
    split at h
    · cases h
    · simp only [Parsed.ok.injEq] at h
      exact ⟨h.1.symm, h.2.symm⟩

/-- The argument loop of `parseFunction` appends one argument per iteration and
every iteration moves the cursor forward: the arguments it appends are fewer
than the tokens it consumes. -/
theorem parseFunctionLoop_arguments (n : Nat) :
    ∀ (name : String) (args : List Expression) (p : Parser) (e : Expression) (q : Parser),
      parseFunctionLoop n name args p = .ok e q →
      ∃ more, e = .FuncExpression name (args ++ more) "FuncExpression" ∧
        more.length + p.current < q.current := by
  induction n with
  | zero => intro name args p e q h; rw [parseFunctionLoop] at h; cases h
  | succ n ih =>
    intro name args p e q h
    rw [parseFunctionLoop_succ] at h
    have close : parseFunctionClose name args p = .ok e q →
        ∃ more, e = .FuncExpression name (args ++ more) "FuncExpression" ∧
          more.length + p.current < q.current := by
      intro hc
      obtain ⟨he, hq⟩ := parseFunctionClose_ok hc
      refine ⟨[], by simpa using he, ?_⟩
      rw [hq]
      simp [Parser.advance]
    cases hg : p.Get [] with
    | none =>
      simp only [hg] at h
      exact close h
    | some token =>
      simp only [hg] at h
      split at h
      · exact close h
      · cases he : parseExpression n p with
        | ok arg p1 =>
          have hadv := (parse_progress n).1 p arg p1 he
          simp only [he] at h
          split at h
          · obtain ⟨more, hm, hlen⟩ := ih _ _ _ _ _ h
            refine ⟨arg :: more, by simpa using hm, ?_⟩
            have := hadv.2.1
            simp only [Parser.advance, List.length_cons] at hlen ⊢
            omega
          · obtain ⟨more, hm, hlen⟩ := ih _ _ _ _ _ h
            refine ⟨arg :: more, by simpa using hm, ?_⟩
            have := hadv.2.1
            simp only [List.length_cons] at hlen ⊢
            omega
        | error msg => simp only [he] at h; cases h
        | panic msg => simp only [he] at h; cases h
        | fuel => simp only [he] at h; cases h

/-- The loop of `Parse` does not run out of steps. -/
theorem parseLoop_ne_fuel (n : Nat) :
    ∀ (p : Parser) (statements : List Expression), 6 * p.left + 7 ≤ n →
      parseLoop n p statements ≠ .fuel := by
  induction n with
  | zero => intro p statements hb; omega
  | succ n ih =>
    intro p statements hb
    rw [parseLoop_succ]
    split
    · unfold parseStatement
      cases he : parseExpression n p with
      | ok stmt p1 =>
        have hlt := ((parse_progress n).1 p stmt p1 he).left_lt
        exact ih p1 _ (by omega)
      | error msg => simp
      | panic msg => simp
      | fuel => exact absurd he ((parse_fuel n).1 p (by omega))
    · simp

/-- When the loop of `Parse` returns a `Program`, it was left with the cursor
at the end of the token slice, and every statement it appended cost at least
one token. -/
theorem parseLoop_success (n : Nat) :
    ∀ (p : Parser) (statements : List Expression) (prog : Program),
      parseLoop n p statements = .ret (prog, none) → p.current ≤ p.tokens.length →
      parseLoopCursor n p = some p.tokens.length ∧
        prog.Statements.length + p.current ≤ statements.length + p.tokens.length := by
  induction n with
  | zero => intro p statements prog h; rw [parseLoop] at h; cases h
  | succ n ih =>
    intro p statements prog h hle
    rw [parseLoop_succ] at h
    rw [parseLoopCursor]
    by_cases hlt : p.current < p.tokens.length
    · rw [if_pos hlt] at h ⊢
      cases he : parseStatement n p with
      | ok stmt p1 =>
        have hadv : Advances p p1 := (parse_progress n).1 p stmt p1 he
        simp only [he] at h
        obtain ⟨hc, hs⟩ := ih p1 _ prog h hadv.2.2
        rw [hadv.1] at hc hs
        refine ⟨hc, ?_⟩
        have := hadv.2.1
        simp only [List.length_append, List.length_singleton] at hs
        omega
      | error msg => simp [he] at h
      | panic msg => simp [he] at h
      | fuel => simp [he] at h
    · rw [if_neg hlt] at h ⊢
      simp only [Outcome.ret.injEq, Prod.mk.injEq, and_true] at h
      rw [← h]
      exact ⟨congrArg some (Nat.le_antisymm hle (Nat.le_of_not_lt hlt)), by simpa using hle⟩

/-- C19: `Parse` terminates on every token slice.  Whenever `parseExpression`
(and hence `parseStatement`) returns an expression, the cursor is strictly
greater than at the call and at most `len(tokens)`, and the token slice is
unchanged; the argument loop of `parseFunction` appends fewer arguments than
it consumes tokens; with the budget of six steps for every token and seven
more `Parse` never runs out of steps, it returns or panics; and when it
returns a `Program` the cursor is `len(tokens)` and the `Program` has at most
`len(tokens)` statements. -/
theorem C19_parse_terminates (tokens : List Token) :
    (∀ fuel p e q, parseExpression fuel p = .ok e q →
      q.tokens = p.tokens ∧ p.current < q.current ∧ q.current ≤ q.tokens.length) ∧
    (∀ fuel p e q, parseStatement fuel p = .ok e q →
      q.tokens = p.tokens ∧ p.current < q.current ∧ q.current ≤ q.tokens.length) ∧
    (∀ fuel name args p e q, parseFunctionLoop fuel name args p = .ok e q →
      ∃ more, e = .FuncExpression name (args ++ more) "FuncExpression" ∧
        more.length + p.current < q.current ∧ q.current ≤ p.tokens.length) ∧
    ((∃ r, Parse tokens = .ret r) ∨ (∃ msg, Parse tokens = .panic msg)) ∧
    (∀ prog, Parse tokens = .ret (prog, none) →
      parseLoopCursor (parseFuel tokens) (NewParser tokens) = some tokens.length ∧
        prog.Statements.length ≤ tokens.length) := by
  refine ⟨fun fuel => (parse_progress fuel).1, fun fuel => (parse_progress fuel).1, ?_, ?_, ?_⟩
  · intro fuel name args p e q h
    obtain ⟨more, hm, hlen⟩ := parseFunctionLoop_arguments fuel name args p e q h
    have hadv := (parse_progress fuel).2.2.2.2.2.2.2.2.2.2 name args p e q h
    exact ⟨more, hm, hlen, by rw [← hadv.1]; exact hadv.2.2⟩
  · have hne : Parse tokens ≠ .fuel :=
      parseLoop_ne_fuel _ _ _ (by simp [parseFuel, NewParser, Parser.left])
    cases h : Parse tokens with
    | ret r => exact Or.inl ⟨r, rfl⟩
    | panic msg => exact Or.inr ⟨msg, rfl⟩
    | fuel => exact absurd h hne
  · intro prog h
    obtain ⟨hc, hs⟩ := parseLoop_success _ _ _ prog h (by simp [NewParser])
    refine ⟨hc, ?_⟩
    simpa [NewParser] using hs

/-- Witness of C19 on the two tokens of `"1 foo"`: `Parse` returns two
statements and leaves the cursor at `2`. -/
theorem C19_parse_terminates_witness :
    parseLoopCursor (parseFuel tokens_two_statements) (NewParser tokens_two_statements)
        = some tokens_two_statements.length ∧
      [num ⟨.NumberToken, "1"⟩, ident ⟨.Identifier, "foo"⟩].length
        ≤ tokens_two_statements.length :=
  (C19_parse_terminates tokens_two_statements).2.2.2.2
    ⟨[num ⟨.NumberToken, "1"⟩, ident ⟨.Identifier, "foo"⟩], "Program"⟩ rfl

/-! ## The shape of parser output -/

theorem parserShaped_binary (Left Right : Expression) (Op : Token) (Kind : String) :
    parserShaped (.BinaryExpression Left Right Op Kind)
      = (isBinaryOperator Op.Typ && parserShaped Left && parserShaped Right) := by
  rw [parserShaped]

theorem parserShaped_func (Name : String) (Args : List Expression) (Kind : String) :
    parserShaped (.FuncExpression Name Args Kind) = allParserShaped Args := by
  rw [parserShaped]

theorem allParserShaped_append (l : List Expression) (e : Expression) :
    allParserShaped (l ++ [e]) = (allParserShaped l && parserShaped e) := by
  induction l with
  | nil => simp [allParserShaped]
  | cons a rest ih => simp [allParserShaped, ih, Bool.and_assoc]

theorem parseNumber_shaped {p : Parser} {e : Expression} {q : Parser}
    (h : parseNumber p = .ok e q) : parserShaped e = true := by
  unfold parseNumber at h
  cases hg : p.Get [] with
  | none => simp [hg] at h
  | some t =>
    simp only [hg, Parsed.ok.injEq] at h
    rw [← h.1, parserShaped]

theorem parseIdentifier_shaped {p : Parser} {e : Expression} {q : Parser}
    (h : parseIdentifier p = .ok e q) : parserShaped e = true := by
  unfold parseIdentifier at h
  cases hg : p.Get [] with
  | none => simp [hg] at h
  | some t =>
    simp only [hg, Parsed.ok.injEq] at h
    rw [← h.1, parserShaped]

theorem parseFunctionClose_shaped {name : String} {args : List Expression} {p : Parser}
    {e : Expression} {q : Parser} (hargs : allParserShaped args = true)
    (h : parseFunctionClose name args p = .ok e q) : parserShaped e = true := by
  rw [(parseFunctionClose_ok h).1, parserShaped_func]
  exact hargs

/-- Every expression that a parse method returns is `parserShaped`; the loops
keep the shape of the expression they extend. -/
theorem parse_shape (n : Nat) :
    (∀ p e q, parseExpression n p = .ok e q → parserShaped e = true) ∧
    (∀ p e q, parseAddition n p = .ok e q → parserShaped e = true) ∧
    (∀ left p e q, parserShaped left = true → parseAdditionLoop n left p = .ok e q →
      parserShaped e = true) ∧
    (∀ p e q, parseMultiplication n p = .ok e q → parserShaped e = true) ∧
    (∀ left p e q, parserShaped left = true → parseMultiplicationLoop n left p = .ok e q →
      parserShaped e = true) ∧
    (∀ p e q, parsePower n p = .ok e q → parserShaped e = true) ∧
    (∀ left p e q, parserShaped left = true → parsePowerLoop n left p = .ok e q →
      parserShaped e = true) ∧
    (∀ p e q, parsePrimary n p = .ok e q → parserShaped e = true) ∧
    (∀ p e q, parseGroup n p = .ok e q → parserShaped e = true) ∧
    (∀ p e q, parseFunction n p = .ok e q → parserShaped e = true) ∧
    (∀ name args p e q, allParserShaped args = true →
      parseFunctionLoop n name args p = .ok e q → parserShaped e = true) := by
  induction n with
  | zero =>
    refine ⟨?_, ?_, ?_, ?_, ?_, ?_, ?_, ?_, ?_, ?_, ?_⟩
    · intro p e q h; rw [parseExpression] at h; cases h
    · intro p e q h; rw [parseAddition] at h; cases h
    · intro left p e q _ h; rw [parseAdditionLoop] at h; cases h
    · intro p e q h; rw [parseMultiplication] at h; cases h
    · intro left p e q _ h; rw [parseMultiplicationLoop] at h; cases h
    · intro p e q h; rw [parsePower] at h; cases h
    · intro left p e q _ h; rw [parsePowerLoop] at h; cases h
    · intro p e q h; rw [parsePrimary] at h; cases h
    · intro p e q h; rw [parseGroup] at h; cases h
    · intro p e q h; rw [parseFunction] at h; cases h
    · intro name args p e q _ h; rw [parseFunctionLoop] at h; cases h
  | succ n ih =>
    obtain ⟨ihE, ihA, ihAL, ihM, ihML, ihP, ihPL, ihPr, ihG, ihF, ihFL⟩ := ih
    refine ⟨?_, ?_, ?_, ?_, ?_, ?_, ?_, ?_, ?_, ?_, ?_⟩
    · intro p e q h
      rw [parseExpression_succ] at h
      exact ihA p e q h
    · intro p e q h
      rw [parseAddition_succ] at h
      cases hm : parseMultiplication n p with
      | ok left p1 =>
        simp only [hm] at h
        exact ihAL left p1 e q (ihM p left p1 hm) h
      | error msg => simp only [hm] at h; cases h
      | panic msg => simp only [hm] at h; cases h
      | fuel => simp only [hm] at h; cases h
    · intro left p e q hleft h
      rw [parseAdditionLoop_succ] at h
      cases hg : p.Get [] with
      | none =>
        simp only [hg, Parsed.ok.injEq] at h
        rw [← h.1]
        exact hleft
      | some token =>
        by_cases hc : token.Typ ≠ .PlusToken ∧ token.Typ ≠ .MinusToken
        · simp only [hg, if_pos hc, Parsed.ok.injEq] at h
          rw [← h.1]
          exact hleft
        · cases hm : parseMultiplication n p.advance with
          | ok right p1 =>
            simp only [hg, if_neg hc, hm] at h
            refine ihAL _ p1 e q ?_ h
            have hop : isBinaryOperator token.Typ = true := by
              by_cases h1 : token.Typ = .PlusToken
              · rw [h1]; rfl
              · by_cases h2 : token.Typ = .MinusToken
                · rw [h2]; rfl
                · exact absurd ⟨h1, h2⟩ hc
            rw [parserShaped_binary, hop, hleft, ihM _ _ _ hm]
            rfl
          | error msg => simp only [hg, if_neg hc, hm] at h; cases h
          | panic msg => simp only [hg, if_neg hc, hm] at h; cases h
          | fuel => simp only [hg, if_neg hc, hm] at h; cases h
    · intro p e q h
      rw [parseMultiplication_succ] at h
      cases hm : parsePower n p with
      | ok left p1 =>
        simp only [hm] at h
        exact ihML left p1 e q (ihP p left p1 hm) h
      | error msg => simp only [hm] at h; cases h
      | panic msg => simp only [hm] at h; cases h
      | fuel => simp only [hm] at h; cases h
    · intro left p e q hleft h
      rw [parseMultiplicationLoop_succ] at h
      cases hg : p.Get [] with
      | none =>
        simp only [hg, Parsed.ok.injEq] at h
        rw [← h.1]
        exact hleft
      | some token =>
        by_cases hc : token.Typ ≠ .MultiplyToken ∧ token.Typ ≠ .DivideToken
        · simp only [hg, if_pos hc, Parsed.ok.injEq] at h
          rw [← h.1]
          exact hleft
        · cases hm : parsePower n p.advance with
          | ok right p1 =>
            simp only [hg, if_neg hc, hm] at h
            refine ihML _ p1 e q ?_ h
            have hop : isBinaryOperator token.Typ = true := by
              by_cases h1 : token.Typ = .MultiplyToken
              · rw [h1]; rfl
              · by_cases h2 : token.Typ = .DivideToken
                · rw [h2]; rfl
                · exact absurd ⟨h1, h2⟩ hc
            rw [parserShaped_binary, hop, hleft, ihP _ _ _ hm]
            rfl
          | error msg => simp only [hg, if_neg hc, hm] at h; cases h
          | panic msg => simp only [hg, if_neg hc, hm] at h; cases h
          | fuel => simp only [hg, if_neg hc, hm] at h; cases h
    · intro p e q h
      rw [parsePower_succ] at h
      cases hm : parsePrimary n p with
      | ok left p1 =>
        simp only [hm] at h
        exact ihPL left p1 e q (ihPr p left p1 hm) h
      | error msg => simp only [hm] at h; cases h
      | panic msg => simp only [hm] at h; cases h
      | fuel => simp only [hm] at h; cases h
    · intro left p e q hleft h
      rw [parsePowerLoop_succ] at h
      cases hg : p.Get [] with
      | none =>
        simp only [hg, Parsed.ok.injEq] at h
        rw [← h.1]
        exact hleft
      | some token =>
        by_cases hc : token.Typ ≠ .PowerToken ∧ token.Typ ≠ .DivideToken
        · simp only [hg, if_pos hc, Parsed.ok.injEq] at h
          rw [← h.1]
          exact hleft
        · cases hm : parsePrimary n p.advance with
          | ok right p1 =>
            simp only [hg, if_neg hc, hm] at h
            refine ihPL _ p1 e q ?_ h
            have hop : isBinaryOperator token.Typ = true := by
              by_cases h1 : token.Typ = .PowerToken
              · rw [h1]; rfl
              · by_cases h2 : token.Typ = .DivideToken
                · rw [h2]; rfl
                · exact absurd ⟨h1, h2⟩ hc
            rw [parserShaped_binary, hop, hleft, ihPr _ _ _ hm]
            rfl
          | error msg => simp only [hg, if_neg hc, hm] at h; cases h
          | panic msg => simp only [hg, if_neg hc, hm] at h; cases h
          | fuel => simp only [hg, if_neg hc, hm] at h; cases h
    · intro p e q h
      rw [parsePrimary_succ] at h
      cases hg : p.Get [] with
      | none => simp only [hg] at h; cases h
      | some token =>
        simp only [hg] at h
        split at h
        · exact parseNumber_shaped h
        · split at h
          · exact parseIdentifier_shaped h
          · split at h
            · exact ihF p e q h
            · cases h
        · exact ihG p e q h
        · cases h
    · intro p e q h
      rw [parseGroup_succ] at h
      cases he : parseExpression n p.advance with
      | ok expr p1 =>
        cases hg : p1.Get [] with
        | none => simp only [he, hg] at h; cases h
        | some token =>
          simp only [he, hg] at h
          split at h
          · cases h
          · simp only [Parsed.ok.injEq] at h
            rw [← h.1]
            exact ihE _ _ _ he
      | error msg => simp only [he] at h; cases h
      | panic msg => simp only [he] at h; cases h
      | fuel => simp only [he] at h; cases h
    · intro p e q h
      rw [parseFunction_succ] at h
      cases hg0 : p.Get [] with
      | none => simp only [hg0] at h; cases h
      | some nameToken =>
        cases hg1 : p.advance.Get [] with
        | none => simp only [hg0, hg1] at h; cases h
        | some t1 =>
          simp only [hg0, hg1] at h
          split at h
          · cases h
          · cases hg2 : p.advance.advance.Get [] with
            | none => simp only [hg2] at h; cases h
            | some t2 =>
              simp only [hg2] at h
              split at h
              · simp only [Parsed.ok.injEq] at h
                rw [← h.1, parserShaped_func]
                rfl
              · exact ihFL _ [] _ e q (by rw [allParserShaped]) h
    · intro name args p e q hargs h
      rw [parseFunctionLoop_succ] at h
      cases hg : p.Get [] with
      | none =>
        simp only [hg] at h
        exact parseFunctionClose_shaped hargs h
      | some token =>
        simp only [hg] at h
        split at h
        · exact parseFunctionClose_shaped hargs h
        · cases he : parseExpression n p with
          | ok arg p1 =>
            have hnext : allParserShaped (args ++ [arg]) = true := by
              rw [allParserShaped_append, hargs, ihE _ _ _ he]
              rfl
            simp only [he] at h
            split at h
            · exact ihFL _ _ _ e q hnext h
            · exact ihFL _ _ _ e q hnext h
          | error msg => simp only [he] at h; cases h
          | panic msg => simp only [he] at h; cases h
          | fuel => simp only [he] at h; cases h

/-- The statements that the loop of `Parse` returns are `parserShaped` when
those it started with are. -/
theorem parseLoop_shape (n : Nat) :
    ∀ (p : Parser) (statements : List Expression) (prog : Program),
      allParserShaped statements = true → parseLoop n p statements = .ret (prog, none) →
      allParserShaped prog.Statements = true := by
  induction n with
  | zero => intro p statements prog _ h; rw [parseLoop] at h; cases h
  | succ n ih =>
    intro p statements prog hs h
    rw [parseLoop_succ] at h
    split at h
    · cases he : parseStatement n p with
      | ok stmt p1 =>
        simp only [he] at h
        refine ih p1 _ prog ?_ h
        rw [allParserShaped_append, hs, (parse_shape n).1 p stmt p1 he]
        rfl
      | error msg => simp [he] at h
      | panic msg => simp [he] at h
      | fuel => simp [he] at h
    · simp only [Outcome.ret.injEq, Prod.mk.injEq, and_true] at h
      rw [← h]
      exact hs

theorem applyBinaryOperator_no_error (M : Float64) (Op : Token) (l r : M.F)
    (h : isBinaryOperator Op.Typ = true) : (applyBinaryOperator M Op l r).2 = none := by
  unfold applyBinaryOperator
  cases hT : Op.Typ <;> simp_all [isBinaryOperator]

/-- On a `parserShaped` tree every error that evaluation returns is an error
of `strconv.ParseFloat`, an undefined variable or an unknown function. -/
theorem evalExpression_shaped_error (M : Float64) :
    (e : Expression) → parserShaped e = true → ∀ (v : M.F) (msg : String),
      evalExpression M e = .ret (v, some msg) → LookupError M msg
  | .NumberExpression Value _, _, v, msg, h => by
    rw [evalExpression] at h
    split at h
    · next err herr =>
      simp only [Outcome.ret.injEq, Prod.mk.injEq, Option.some.injEq] at h
      exact Or.inl ⟨Value.Value, by rw [← h.2]; exact herr⟩
    · simp at h
  | .FuncExpression Name Args _, _, v, msg, h => by
    rw [evalExpression_func] at h
    split at h
    · unfold applyFunction at h
      split at h
      · split at h <;> simp at h
      · simp only [Outcome.ret.injEq, Prod.mk.injEq, Option.some.injEq] at h
        exact Or.inr (Or.inr ⟨Name, h.2.symm⟩)
    · cases h
    · cases h
  | .BinaryExpression Left Right Op _, hs, v, msg, h => by
    rw [parserShaped_binary] at hs
    simp only [Bool.and_eq_true] at hs
    obtain ⟨⟨hop, hl⟩, hr⟩ := hs
    rw [evalExpression_binary] at h
    cases hleft : evalExpression M Left with
    | panic m => rw [hleft] at h; cases h
    | fuel => rw [hleft] at h; cases h
    | ret a =>
      obtain ⟨x, err⟩ := a
      cases hright : evalExpression M Right with
      | panic m => rw [hleft, hright] at h; cases h
      | fuel => rw [hleft, hright] at h; cases h
      | ret b =>
        obtain ⟨y, err2⟩ := b
        rw [hleft, hright] at h
        cases err with
        | some e1 =>
          simp at h
          exact evalExpression_shaped_error M Left hl x msg (by rw [hleft, h.2])
        | none =>
          cases err2 with
          | some e2 =>
            simp at h
            exact evalExpression_shaped_error M Right hr y msg (by rw [hright, h.2])
          | none =>
            have hno := applyBinaryOperator_no_error M Op x y hop
            simp at h
            rw [h] at hno
            cases hno
  | .IdentifierExpression Value _, _, v, msg, h => by
    rw [evalExpression] at h
    unfold evalIdentifierExpression at h
    split at h
    · simp at h
    · simp only [Outcome.ret.injEq, Prod.mk.injEq, Option.some.injEq] at h
      exact Or.inr (Or.inl ⟨Value.Value, h.2.symm⟩)
  | .Program _ _, hs, _, _, _ => by
    rw [parserShaped] at hs
    cases hs
  | .UnaryExpression _ _ _, hs, _, _, _ => by
    rw [parserShaped] at hs
    cases hs

theorem parserShaped_of_mem {l : List Expression} (h : allParserShaped l = true)
    {s : Expression} (hs : s ∈ l) : parserShaped s = true := by
  induction l with
  | nil => simp at hs
  | cons a rest ih =>
    rw [allParserShaped, Bool.and_eq_true] at h
    rcases List.mem_cons.mp hs with rfl | hmem
    · exact h.1
    · exact ih h.2 hmem

/-- An error of the three kinds of `LookupError` is neither an `Unknown binary
operator` nor an `Unknown expression type` error, as long as the errors of
`strconv.ParseFloat` do not begin with `Unknown `. -/
theorem LookupError.not_default {M : Float64} {msg : String} (h : LookupError M msg)
    (hparse : ∀ s m, M.ParseFloat s = .error m → ¬ startsWith "Unknown " m) :
    ¬ startsWith "Unknown binary operator: " msg ∧
      ¬ startsWith "Unknown expression type: " msg := by
  rcases h with ⟨s, hs⟩ | ⟨s, rfl⟩ | ⟨s, rfl⟩
  · have h1 : "Unknown ".data <+: "Unknown binary operator: ".data :=
      ⟨"binary operator: ".data, rfl⟩
    have h2 : "Unknown ".data <+: "Unknown expression type: ".data :=
      ⟨"expression type: ".data, rfl⟩
    exact ⟨fun hb => hparse s msg hs (List.IsPrefix.trans h1 hb),
      fun he => hparse s msg hs (List.IsPrefix.trans h2 he)⟩
  · constructor
    · unfold startsWith
      rw [String.data_append]
      show ¬ ('U' :: 'n' :: 'k' :: "nown binary operator: ".data
        <+: 'U' :: 'n' :: 'd' :: ("efined variable ".data ++ s.data))
      simp [List.cons_prefix_cons]
    · unfold startsWith
      rw [String.data_append]
      show ¬ ('U' :: 'n' :: 'k' :: "nown expression type: ".data
        <+: 'U' :: 'n' :: 'd' :: ("efined variable ".data ++ s.data))
      simp [List.cons_prefix_cons]
  · constructor
    · unfold startsWith
      rw [String.data_append]
      show ¬ ('U' :: 'n' :: 'k' :: 'n' :: 'o' :: 'w' :: 'n' :: ' ' :: 'b' ::
          "inary operator: ".data
        <+: 'U' :: 'n' :: 'k' :: 'n' :: 'o' :: 'w' :: 'n' :: ' ' :: 'f' ::
          ("unction: ".data ++ s.data))
      simp [List.cons_prefix_cons]
    · unfold startsWith
      rw [String.data_append]
      show ¬ ('U' :: 'n' :: 'k' :: 'n' :: 'o' :: 'w' :: 'n' :: ' ' :: 'e' ::
          "xpression type: ".data
        <+: 'U' :: 'n' :: 'k' :: 'n' :: 'o' :: 'w' :: 'n' :: ' ' :: 'f' ::
          ("unction: ".data ++ s.data))
      simp [List.cons_prefix_cons]

theorem Eval_shaped_error (M : Float64) (prog : Program)
    (hs : allParserShaped prog.Statements = true) (v : M.F) (msg : String)
    (h : Eval M prog = .ret (v, some msg)) : LookupError M msg := by
  unfold Eval at h
  rw [evalExpression_program] at h
  cases hst : prog.Statements with
  | nil => simp [hst] at h
  | cons s0 rest =>
    rw [hst] at h hs
    exact evalExpression_shaped_error M s0
      (parserShaped_of_mem hs (List.mem_cons_self _ _)) v msg h

/-- C18: shape of parser output.  When `Parse` returns a `Program` without
error, every node of every statement is a `NumberExpression`, an
`IdentifierExpression`, a `FuncExpression` or a `BinaryExpression` whose
operator token is Plus, Minus, Multiply, Divide or Power: no `UnaryExpression`
and no nested `Program` occurs.  Hence every error that evaluating a statement
(or `Eval` of the `Program`) returns is an error of `strconv.ParseFloat`, an
undefined variable or an unknown function, and, the errors of
`strconv.ParseFloat` not beginning with `Unknown `, never the
`Unknown binary operator` or `Unknown expression type` error of the `default`
branches (which return these on any other operator kind and on a
`UnaryExpression`). -/
theorem C18_parser_output_shape (tokens : List Token) (prog : Program)
    (h : Parse tokens = .ret (prog, none)) :
    allParserShaped prog.Statements = true ∧
    (∀ (M : Float64) (s : Expression), s ∈ prog.Statements → ∀ (v : M.F) (msg : String),
      evalExpression M s = .ret (v, some msg) → LookupError M msg) ∧
    (∀ (M : Float64) (v : M.F) (msg : String),
      Eval M prog = .ret (v, some msg) → LookupError M msg) ∧
    (∀ M : Float64, (∀ s m, M.ParseFloat s = .error m → ¬ startsWith "Unknown " m) →
      ∀ (v : M.F) (msg : String), Eval M prog = .ret (v, some msg) →
        ¬ startsWith "Unknown binary operator: " msg ∧
          ¬ startsWith "Unknown expression type: " msg) ∧
    (∀ (M : Float64) (Op : Token) (l r : M.F), isBinaryOperator Op.Typ = false →
      applyBinaryOperator M Op l r
        = (M.zero, some ("Unknown binary operator: " ++ Op.Typ.String))) ∧
    (∀ (M : Float64) (Right : Expression) (Op : Token) (Kind : String),
      evalExpression M (.UnaryExpression Right Op Kind)
        = .ret (M.zero, some "Unknown expression type: calc.UnaryExpression")) := by
  have hs : allParserShaped prog.Statements = true :=
    parseLoop_shape _ _ _ prog (by rw [allParserShaped]) h
  refine ⟨hs, ?_, ?_, ?_, ?_, ?_⟩
  · intro M s hmem v msg hev
    exact evalExpression_shaped_error M s (parserShaped_of_mem hs hmem) v msg hev
  · intro M v msg hev
    exact Eval_shaped_error M prog hs v msg hev
  · intro M hparse v msg hev
    exact (Eval_shaped_error M prog hs v msg hev).not_default hparse
  · intro M Op l r hop
    unfold applyBinaryOperator
    cases hT : Op.Typ <;> simp_all [isBinaryOperator]
  · intro M Right Op Kind
    exact evalExpression_unary M Right Op Kind

/-- Witness of C18 on the tokens of `"1+2*3"`: the statement that `Parse`
returns is of the shape. -/
theorem C18_parser_output_shape_witness :
    allParserShaped
        [sumWithProduct ⟨.NumberToken, "1"⟩ ⟨.PlusToken, "+"⟩ ⟨.NumberToken, "2"⟩
          ⟨.MultiplyToken, "*"⟩ ⟨.NumberToken, "3"⟩] = true :=
  (C18_parser_output_shape tokens_1_plus_2_times_3
    ⟨[sumWithProduct ⟨.NumberToken, "1"⟩ ⟨.PlusToken, "+"⟩ ⟨.NumberToken, "2"⟩
      ⟨.MultiplyToken, "*"⟩ ⟨.NumberToken, "3"⟩], "Program"⟩ rfl).1

/-! ## The Divide alternative of the multiplication level -/

/-- When the loop of `parsePower` returns, the current token is neither Power
nor Divide (or the input has ended). -/
theorem parsePowerLoop_stops (n : Nat) :
    ∀ (left : Expression) (p : Parser) (e : Expression) (q : Parser),
      parsePowerLoop n left p = .ok e q →
      ∀ t, q.Get [] = some t → t.Typ ≠ .PowerToken ∧ t.Typ ≠ .DivideToken := by
  induction n with
  | zero => intro left p e q h; rw [parsePowerLoop] at h; cases h
  | succ n ih =>
    intro left p e q h
    rw [parsePowerLoop_succ] at h
    cases hg : p.Get [] with
    | none =>
      simp only [hg, Parsed.ok.injEq] at h
      intro t ht
      rw [← h.2, hg] at ht
      cases ht
    | some token =>
      by_cases hc : token.Typ ≠ .PowerToken ∧ token.Typ ≠ .DivideToken
      · simp only [hg, if_pos hc, Parsed.ok.injEq] at h
        intro t ht
        rw [← h.2, hg] at ht
        cases ht
        exact hc
      · cases hm : parsePrimary n p.advance with
        | ok right p1 =>
          simp only [hg, if_neg hc, hm] at h
          exact ih _ p1 e q h
        | error msg => simp only [hg, if_neg hc, hm] at h; cases h
        | panic msg => simp only [hg, if_neg hc, hm] at h; cases h
        | fuel => simp only [hg, if_neg hc, hm] at h; cases h

/-- When `parsePower` returns an expression, the current token is neither Power
nor Divide (or the input has ended). -/
theorem parsePower_stops {n : Nat} {p : Parser} {e : Expression} {q : Parser}
    (h : parsePower n p = .ok e q) :
    ∀ t, q.Get [] = some t → t.Typ ≠ .PowerToken ∧ t.Typ ≠ .DivideToken := by
  cases n with
  | zero => rw [parsePower] at h; cases h
  | succ n =>
    rw [parsePower_succ] at h
    cases hm : parsePrimary n p with
    | ok left p1 =>
      simp only [hm] at h
      exact parsePowerLoop_stops n left p1 e q h
    | error msg => simp only [hm] at h; cases h
    | panic msg => simp only [hm] at h; cases h
    | fuel => simp only [hm] at h; cases h

/-- The variant parse methods return what the parse methods return, the loop of
the multiplication level wherever the current token is not Divide. -/
theorem parse_multiplyOnly (n : Nat) :
    (∀ p, parseExpressionMultiplyOnly n p = parseExpression n p) ∧
    (∀ p, parseAdditionMultiplyOnly n p = parseAddition n p) ∧
    (∀ left p, parseAdditionLoopMultiplyOnly n left p = parseAdditionLoop n left p) ∧
    (∀ p, parseMultiplicationMultiplyOnly n p = parseMultiplication n p) ∧
    (∀ left p, (∀ t, p.Get [] = some t → t.Typ ≠ .DivideToken) →
      parseMultiplicationLoopMultiplyOnly n left p = parseMultiplicationLoop n left p) ∧
    (∀ p, parsePowerMultiplyOnly n p = parsePower n p) ∧
    (∀ left p, parsePowerLoopMultiplyOnly n left p = parsePowerLoop n left p) ∧
    (∀ p, parsePrimaryMultiplyOnly n p = parsePrimary n p) ∧
    (∀ p, parseGroupMultiplyOnly n p = parseGroup n p) ∧
    (∀ p, parseFunctionMultiplyOnly n p = parseFunction n p) ∧
    (∀ name args p,
      parseFunctionLoopMultiplyOnly n name args p = parseFunctionLoop n name args p) := by
  induction n with
  | zero =>
    refine ⟨?_, ?_, ?_, ?_, ?_, ?_, ?_, ?_, ?_, ?_, ?_⟩
    · intro p; rw [parseExpressionMultiplyOnly, parseExpression]
    · intro p; rw [parseAdditionMultiplyOnly, parseAddition]
    · intro left p; rw [parseAdditionLoopMultiplyOnly, parseAdditionLoop]
    · intro p; rw [parseMultiplicationMultiplyOnly, parseMultiplication]
    · intro left p _; rw [parseMultiplicationLoopMultiplyOnly, parseMultiplicationLoop]
    · intro p; rw [parsePowerMultiplyOnly, parsePower]
    · intro left p; rw [parsePowerLoopMultiplyOnly, parsePowerLoop]
    · intro p; rw [parsePrimaryMultiplyOnly, parsePrimary]
    · intro p; rw [parseGroupMultiplyOnly, parseGroup]
    · intro p; rw [parseFunctionMultiplyOnly, parseFunction]
    · intro name args p; rw [parseFunctionLoopMultiplyOnly, parseFunctionLoop]
  | succ n ih =>
    obtain ⟨ihE, ihA, ihAL, ihM, ihML, ihP, ihPL, ihPr, ihG, ihF, ihFL⟩ := ih
    refine ⟨?_, ?_, ?_, ?_, ?_, ?_, ?_, ?_, ?_, ?_, ?_⟩
    · intro p
      rw [parseExpressionMultiplyOnly, parseExpression, ihA]
    · intro p
      rw [parseAdditionMultiplyOnly, parseAddition]
      simp only [ihM, ihAL]
    · intro left p
      rw [parseAdditionLoopMultiplyOnly, parseAdditionLoop]
      simp only [ihM, ihAL]
    · intro p
      rw [parseMultiplicationMultiplyOnly, parseMultiplication, ihP]
      cases hm : parsePower n p with
      | ok left p1 => exact ihML left p1 (fun t ht => (parsePower_stops hm t ht).2)
      | error msg => rfl
      | panic msg => rfl
      | fuel => rfl
    · intro left p hpre
      rw [parseMultiplicationLoopMultiplyOnly, parseMultiplicationLoop]
      cases hg : p.Get [] with
      | none => rfl
      | some token =>
        have hdiv : token.Typ ≠ .DivideToken := hpre token hg
        by_cases hmul : token.Typ = .MultiplyToken
        · simp only [if_neg (not_not.mpr hmul),
            if_neg (fun h : token.Typ ≠ .MultiplyToken ∧ token.Typ ≠ .DivideToken => h.1 hmul),
            ihP]
          cases hm : parsePower n p.advance with
          | ok right p1 => exact ihML _ p1 (fun t ht => (parsePower_stops hm t ht).2)
          | error msg => rfl
          | panic msg => rfl
          | fuel => rfl
        · simp only [if_pos hmul,
            if_pos (show token.Typ ≠ .MultiplyToken ∧ token.Typ ≠ .DivideToken from
              ⟨hmul, hdiv⟩)]
    · intro p
      rw [parsePowerMultiplyOnly, parsePower]
      simp only [ihPr, ihPL]
    · intro left p
      rw [parsePowerLoopMultiplyOnly, parsePowerLoop]
      simp only [ihPr, ihPL]
    · intro p
      rw [parsePrimaryMultiplyOnly, parsePrimary]
      simp only [ihF, ihG]
    · intro p
      rw [parseGroupMultiplyOnly, parseGroup]
      simp only [ihE]
    · intro p
      rw [parseFunctionMultiplyOnly, parseFunction]
      simp only [ihFL]
    · intro name args p
      rw [parseFunctionLoopMultiplyOnly, parseFunctionLoop]
      simp only [ihE, ihFL]

theorem parseLoopMultiplyOnly_eq (n : Nat) :
    ∀ (p : Parser) (statements : List Expression),
      parseLoopMultiplyOnly n p statements = parseLoop n p statements := by
  induction n with
  | zero => intro p statements; rw [parseLoopMultiplyOnly, parseLoop]
  | succ n ih =>
    intro p statements
    rw [parseLoopMultiplyOnly, parseLoop]
    unfold parseStatementMultiplyOnly parseStatement
    simp only [(parse_multiplyOnly n).1, ih]

/-- C20: the Divide alternative of the multiplication level is dead code.
Whenever `parsePower` returns an expression, the current token is neither
Power nor Divide (or the input has ended); the loop of the multiplication
level, entered there, does what the loop that accepts only Multiply does; and
for every token slice `Parse` returns exactly what the variant parser, whose
multiplication-level loop accepts only Multiply, returns: the same `Program`,
the same error or the same panic. -/
theorem C20_divide_alternative_dead :
    (∀ (fuel : Nat) (p : Parser) (e : Expression) (q : Parser),
      parsePower fuel p = .ok e q →
      (∀ t, q.Get [] = some t → t.Typ ≠ .PowerToken ∧ t.Typ ≠ .DivideToken) ∧
        ∀ left, parseMultiplicationLoopMultiplyOnly fuel left q
          = parseMultiplicationLoop fuel left q) ∧
    (∀ tokens : List Token, ParseMultiplyOnly tokens = Parse tokens) := by
  constructor
  · intro fuel p e q h
    refine ⟨parsePower_stops h, fun left => ?_⟩
    exact (parse_multiplyOnly fuel).2.2.2.2.1 left q (fun t ht => (parsePower_stops h t ht).2)
  · intro tokens
    exact parseLoopMultiplyOnly_eq _ _ _

/-- Witness of C20 on the tokens of `"1/2*3"`: `parsePower` takes `1/2` and
stops at the Multiply token, and both parsers return `(1/2)*3`. -/
theorem C20_divide_alternative_dead_witness :
    (∀ t, (Parser.mk tokens_divide_then_multiply 3).Get [] = some t →
      t.Typ ≠ .PowerToken ∧ t.Typ ≠ .DivideToken) ∧
    ParseMultiplyOnly tokens_divide_then_multiply
      = .ret (⟨[binary (binary (num ⟨.NumberToken, "1"⟩) ⟨.DivideToken, "/"⟩
            (num ⟨.NumberToken, "2"⟩)) ⟨.MultiplyToken, "*"⟩ (num ⟨.NumberToken, "3"⟩)],
          "Program"⟩, none) :=
  ⟨(C20_divide_alternative_dead.1 4 (NewParser tokens_divide_then_multiply)
      (binary (num ⟨.NumberToken, "1"⟩) ⟨.DivideToken, "/"⟩ (num ⟨.NumberToken, "2"⟩))
      ⟨tokens_divide_then_multiply, 3⟩ rfl).1,
   (C20_divide_alternative_dead.2 tokens_divide_then_multiply).trans rfl⟩

end Calc
